import Mathlib

set_option maxHeartbeats 4000000
set_option maxRecDepth 8000

namespace Steno

/-! Shallow embedding of the query package of stenographer (src/query/y.go): the goyacc-generated
lexer and parse tables, the table-driven parser, the Query AST and its GetTimeSpan and
timeQuery.LookupIn operations.  Go strings are modelled as lists of characters (all inputs of
interest are ASCII, where Go's byte indexing and character indexing agree); Go time.Time is
modelled as an integer count of nanoseconds since Go's zero time (January 1, year 1 UTC), so the
zero time.Time is 0, IsZero is comparison with 0, Before/After are < / >, and Add adds a duration
in nanoseconds. -/

/-- time.Minute in nanoseconds. -/
def minuteNs : Int := 60000000000

/-- Seconds from Go's zero time (year 1) to the Unix epoch; time.Unix(0, n) is this offset plus
n nanoseconds. -/
def goUnixEpochNs : Int := 62135596800 * 1000000000

/-- Go int64 wrap-around, for int64 multiplication overflow semantics. -/
def wrap64 (x : Int) : Int :=
  (x + 9223372036854775808) % 18446744073709551616 - 9223372036854775808

/-- Go uint16(n) conversion from int: the low 16 bits. -/
def uint16 (n : Int) : Nat := (n % 65536).toNat

/-- Go uint32(n) conversion from int: the low 32 bits. -/
def uint32 (n : Int) : Nat := (n % 4294967296).toNat

/-- Go byte(n) conversion from int: the low 8 bits. -/
def byteWrap (n : Int) : Nat := (n % 256).toNat

/-- The Query variants of src/query/y.go: portQuery (uint16), vlanQuery (uint16),
mplsQuery (uint32), protocolQuery (byte), ipQuery ([2]net.IP, each IP a byte list),
timeQuery ([2]time.Time), unionQuery and intersectQuery ([]Query).  nilq stands for the nil
value of the Go Query interface (the zero value of a query field before any assignment). -/
inductive Query where
  | portQ (n : Nat)
  | vlanQ (n : Nat)
  | mplsQ (n : Nat)
  | protocolQ (n : Nat)
  | ipQ (fromIP toIP : List Nat)
  | timeQ (t0 t1 : Int)
  | unionQ (qs : List Query)
  | intersectQ (qs : List Query)
  | nilq

/-- Parse-time error messages: one constructor per fmt.Sprintf / fmt.Errorf call site in
src/query/y.go, carrying the formatted arguments (the rendering to a Go string is not modelled,
only the identity and payload of each error). -/
inductive ErrMsg where
  | badTime (part : List Char)
  | badIP (part : List Char)
  | badDur (part : List Char)
  | invalidPort (n : Int)
  | invalidVlan (n : Int)
  | invalidMpls (n : Int)
  | invalidProto (n : Int)
  | badCidr (ip : List Nat) (n : Int)
  | badIPOrMask (ip mask : List Nat)
  | betweenOrder (t1 t2 : Int)
  | synErr
deriving DecidableEq

/-- The error built by parserLex.Error: fmt.Errorf("%v at character %v (%q HERE %q)", s, x.pos,
x.in[:x.pos], x.in[x.pos:]). -/
structure GoError where
  msg : ErrMsg
  pos : Nat
  seen : List Char
  rest : List Char
deriving DecidableEq

/-- Go struct parserSymType (the yacc semantic value). -/
structure PSym where
  yys : Int := 0
  num : Int := 0
  ip : List Nat := []
  str : List Char := []
  query : Query := Query.nilq
  dur : Int := 0
  time : Int := 0

/-! ### Token codes (the constants HOST .. TIME of y.go) -/

def tokHOST : Int := 57346
def tokPORT : Int := 57347
def tokPROTO : Int := 57348
def tokAND : Int := 57349
def tokOR : Int := 57350
def tokNET : Int := 57351
def tokMASK : Int := 57352
def tokTCP : Int := 57353
def tokUDP : Int := 57354
def tokICMP : Int := 57355
def tokBEFORE : Int := 57356
def tokAFTER : Int := 57357
def tokIPP : Int := 57358
def tokAGO : Int := 57359
def tokVLAN : Int := 57360
def tokMPLS : Int := 57361
def tokBETWEEN : Int := 57362
def tokIP : Int := 57363
def tokNUM : Int := 57364
def tokDUR : Int := 57365
def tokTIME : Int := 57366

/-! ### The lexer (parserLex.Lex and its helpers) -/

/-- Go unicode.IsSpace on the characters a query byte can denote (Latin-1 range). -/
def goIsSpace (c : Char) : Bool :=
  c.toNat == 32 || c.toNat == 9 || c.toNat == 10 || c.toNat == 11 || c.toNat == 12 ||
    c.toNat == 13 || c.toNat == 133 || c.toNat == 160

/-- Number of leading whitespace characters, for the whitespace-skipping loop of Lex. -/
def skipCount : List Char → Nat
  | [] => 0
  | c :: cs => if goIsSpace c then skipCount cs + 1 else 0

/-- Cursor after the whitespace-skipping loop of Lex. -/
def skipSpaces (s : List Char) (pos : Nat) : Nat :=
  pos + skipCount (s.drop pos)

/-- The keyword table (the Go map "tokens" of y.go).  Go iterates this map in an unspecified
order; since no keyword is a textual prefix of another, at most one entry can match at a given
cursor, so the iteration order is irrelevant (theorem c9 proves the order-independent
characterization).  We fix the textual order of the Go composite literal. -/
def tokens : List (List Char × Int) :=
  [("after".data, tokAFTER), ("ago".data, tokAGO), ("&&".data, tokAND), ("and".data, tokAND),
   ("before".data, tokBEFORE), ("host".data, tokHOST), ("icmp".data, tokICMP),
   ("ip".data, tokIPP), ("mask".data, tokMASK), ("net".data, tokNET), ("||".data, tokOR),
   ("or".data, tokOR), ("port".data, tokPORT), ("vlan".data, tokVLAN), ("mpls".data, tokMPLS),
   ("proto".data, tokPROTO), ("tcp".data, tokTCP), ("udp".data, tokUDP),
   ("between".data, tokBETWEEN)]

/-- First keyword of the table that is a prefix of the remaining input (the strings.HasPrefix
loop of Lex); returns its length and token code. -/
def kwFind : List (List Char × Int) → List Char → Option (Nat × Int)
  | [], _ => none
  | (t, i) :: rest, s => if t.isPrefixOf s then some (t.length, i) else kwFind rest s

/-- The case ':', '.' of the literal-scanning switch. -/
def ipChar (c : Char) : Bool := c == ':' || c == '.'

/-- The case '0'..'9', 'a'..'f' of the literal-scanning switch. -/
def hexChar (c : Char) : Bool := "0123456789abcdef".data.contains c

/-- The case 'm', 'h' of the literal-scanning switch. -/
def mhChar (c : Char) : Bool := c == 'm' || c == 'h'

/-- The case '-', 'T', '+', 'Z' of the literal-scanning switch. -/
def timeChar (c : Char) : Bool := c == '-' || c == 'T' || c == '+' || c == 'Z'

/-- Result of the literal-scanning loop of Lex: number of characters consumed and the three
classification flags. -/
structure ScanOut where
  k : Nat
  isIP : Bool
  isDur : Bool
  isTime : Bool
deriving DecidableEq

/-- The literal-scanning loop of Lex (the "for ... switch c := x.in[x.pos]" loop): consumes
characters of the literal alphabet, sets isIP on ':' '.', sets isTime on '-' 'T' '+' 'Z', and
stops immediately after an 'm' or 'h' setting isDur; any other character stops the loop without
being consumed. -/
def scanRun : List Char → ScanOut
  | [] => ⟨0, false, false, false⟩
  | c :: cs =>
    if ipChar c then
      let r := scanRun cs
      ⟨r.k + 1, true, r.isDur, r.isTime⟩
    else if hexChar c then
      let r := scanRun cs
      ⟨r.k + 1, r.isIP, r.isDur, r.isTime⟩
    else if mhChar c then ⟨1, false, true, false⟩
    else if timeChar c then
      let r := scanRun cs
      ⟨r.k + 1, r.isIP, r.isDur, true⟩
    else ⟨0, false, false, false⟩

/-- Decimal digit test (ASCII '0'..'9'). -/
def isDigitCh (c : Char) : Bool := 48 ≤ c.toNat && c.toNat ≤ 57

/-- Value of a decimal digit string, left to right, over an accumulator; none on a non-digit. -/
def decVal : List Char → Nat → Option Nat
  | [], acc => some acc
  | c :: cs, acc => if isDigitCh c then decVal cs (acc * 10 + (c.toNat - 48)) else none

/-- Go strconv.Atoi on a 64-bit platform (also strconv.ParseInt(s, 10, 64)): optional sign,
one or more decimal digits, int64 range check. -/
def atoi (s : List Char) : Option Int :=
  let (neg, digs) :=
    match s with
    | '-' :: rest => (true, rest)
    | '+' :: rest => (false, rest)
    | _ => (false, s)
  match digs, decVal digs 0 with
  | [], _ => none
  | _, none => none
  | _ :: _, some v =>
    if neg then
      if v ≤ 9223372036854775808 then some (-(v : Int)) else none
    else
      if v ≤ 9223372036854775807 then some ((v : Int)) else none

/-- Value of a nonempty decimal digit list (used where digits were already checked). -/
def natOfDigits (l : List Char) : Nat := l.foldl (fun a c => a * 10 + (c.toNat - 48)) 0

/-- The duration units of Go time.ParseDuration, in nanoseconds (the µs spelling is omitted:
µ is not in the lexer's literal alphabet so it can never reach the parser). -/
def durUnits : List (List Char × Int) :=
  [("ns".data, 1), ("us".data, 1000), ("ms".data, 1000000), ("s".data, 1000000000),
   ("m".data, 60000000000), ("h".data, 3600000000000)]

/-- Look up a duration unit. -/
def durUnitVal : List (List Char × Int) → List Char → Option Int
  | [], _ => none
  | (u, v) :: rest, s => if s = u then some v else durUnitVal rest s

/-- Groups of Go time.ParseDuration: repeated (digits, unit) pairs summed; fuel bounds the
recursion by the string length.  Fractional parts are not modelled: a '.' in a literal run sends
the lexer down the IP branch, so no argument of goParseDur ever contains '.'; nor are the
int64 overflow errors of ParseDuration. -/
def durGroups : Nat → List Char → Option Int
  | _, [] => some 0
  | 0, _ => none
  | fuel + 1, s =>
    let digs := s.takeWhile isDigitCh
    let rest := s.dropWhile isDigitCh
    if digs.isEmpty then none
    else
      let unit := rest.takeWhile (fun c => !(isDigitCh c || c == '.'))
      let rest2 := rest.drop unit.length
      match durUnitVal durUnits unit with
      | none => none
      | some u => (durGroups fuel rest2).map (fun acc => acc + (natOfDigits digs : Int) * u)

/-- Model of Go time.ParseDuration for strings over the lexer's literal alphabet: optional
sign, then one or more (decimal digits, unit) groups; "0" alone is allowed. -/
def goParseDur (s : List Char) : Option Int :=
  match s with
  | [] => none
  | _ =>
    let (neg, body) :=
      match s with
      | '-' :: r => (true, r)
      | '+' :: r => (false, r)
      | _ => (false, s)
    if body = "0".data then some 0
    else if body.isEmpty then none
    else (durGroups (body.length + 1) body).map (fun v => if neg then -v else v)

/-- Hexadecimal digit value (upper and lower case, as Go net's xtoi). -/
def hexVal (c : Char) : Option Nat :=
  if 48 ≤ c.toNat ∧ c.toNat ≤ 57 then some (c.toNat - 48)
  else if 97 ≤ c.toNat ∧ c.toNat ≤ 102 then some (c.toNat - 87)
  else if 65 ≤ c.toNat ∧ c.toNat ≤ 70 then some (c.toNat - 55)
  else none

/-- One dotted-quad field of an IPv4 address: 1-3 decimal digits, value at most 255, no leading
zero (Go rejects leading zeros in IP literals). -/
def v4Field (s : List Char) : Option Nat :=
  match s with
  | [] => none
  | _ =>
    if s.length > 3 then none
    else if s.length > 1 ∧ s.headD ' ' = '0' then none
    else
      match decVal s 0 with
      | none => none
      | some v => if v ≤ 255 then some v else none

/-- Split a character list on a separator character. -/
def splitOn (sep : Char) (s : List Char) : List (List Char) :=
  List.foldr
    (fun c acc =>
      match acc with
      | [] => if c == sep then [[], []] else [[c]]
      | g :: gs => if c == sep then [] :: g :: gs else (c :: g) :: gs)
    [[]] s

/-- Model of Go IPv4 literal parsing: exactly four dotted-quad fields; result is the 4-byte
form (net.ParseIP yields the 16-byte IPv4-in-IPv6 form, rebuilt by the caller below). -/
def goParseIPv4 (s : List Char) : Option (List Nat) :=
  match splitOn '.' s with
  | [a, b, c, d] =>
    match v4Field a, v4Field b, v4Field c, v4Field d with
    | some x, some y, some z, some w => some [x, y, z, w]
    | _, _, _, _ => none
  | _ => none

/-- The fixed 12-byte prefix of an IPv4-in-IPv6 address. -/
def v4InV6Pre : List Nat := [0, 0, 0, 0, 0, 0, 0, 0, 0, 0, 255, 255]

/-- One 16-bit IPv6 group: 1-4 hexadecimal digits. -/
def v6Group (s : List Char) : Option Nat :=
  match s with
  | [] => none
  | _ =>
    if s.length > 4 then none
    else
      s.foldl (fun acc c =>
        match acc, hexVal c with
        | some a, some h => some (a * 16 + h)
        | _, _ => none) (some 0)

/-- Byte list of a sequence of IPv6 groups, the last of which may be an embedded dotted-quad
IPv4 address (counting as four bytes). -/
def v6GroupBytes : List (List Char) → Option (List Nat)
  | [] => some []
  | [g] =>
    if g.contains '.' then goParseIPv4 g
    else (v6Group g).map (fun v => [v / 256, v % 256])
  | g :: gs =>
    match v6Group g, v6GroupBytes gs with
    | some v, some rest => some (v / 256 :: v % 256 :: rest)
    | _, _ => none

/-- Model of Go IPv6 literal parsing: colon-separated 16-bit hexadecimal groups, at most one
"::" standing for a run of at least one zero group (for a total of 16 bytes), and an optional
embedded IPv4 tail. -/
def goParseIPv6 (s : List Char) : Option (List Nat) :=
  let parts := splitOn ':' s
  -- locate an empty group: "a::b" splits as [a, "", b], "::b" as ["", "", b], "::" as 3 empties
  let cleaned :=
    match parts with
    | [] :: [] :: rest => [] :: rest      -- leading "::"
    | l => l
  let cleaned2 :=
    match cleaned.reverse with
    | [] :: [] :: rest => ([] :: rest).reverse  -- trailing "::"
    | _ => cleaned
  match cleaned2.filter (fun g => g.isEmpty) |>.length with
  | 0 =>
    match v6GroupBytes cleaned2 with
    | some bs => if bs.length = 16 then some bs else none
    | none => none
  | 1 =>
    let left := cleaned2.takeWhile (fun g => !g.isEmpty)
    let right := (cleaned2.dropWhile (fun g => !g.isEmpty)).drop 1
    match v6GroupBytes left, v6GroupBytes right with
    | some lb, some rb =>
      if lb.length + rb.length ≤ 14 then
        some (lb ++ List.replicate (16 - lb.length - rb.length) 0 ++ rb)
      else none
    | _, _ => none
  | _ => none

/-- Model of Go net.ParseIP: the first '.' or ':' in the string decides the family; the
result is the 16-byte form (IPv4 addresses are returned in IPv4-in-IPv6 form, as net.ParseIP
does). -/
def goParseIP (s : List Char) : Option (List Nat) :=
  match s.find? (fun c => c == '.' || c == ':') with
  | some '.' => (goParseIPv4 s).map (fun b4 => v4InV6Pre ++ b4)
  | some _ => goParseIPv6 s
  | none => none

/-- Go net.IP.To4: a 4-byte address is itself; a 16-byte IPv4-in-IPv6 address is its last four
bytes; anything else has no 4-byte form. -/
def goTo4 (ip : List Nat) : Option (List Nat) :=
  if ip.length = 4 then some ip
  else if ip.length = 16 ∧ ip.take 12 = v4InV6Pre then some (ip.drop 12)
  else none

/-! ### RFC 3339 timestamps (model of Go time.Parse(time.RFC3339, s)) -/

/-- Gregorian leap year. -/
def isLeap (y : Nat) : Bool := (y % 4 == 0 && y % 100 != 0) || y % 400 == 0

/-- Days in a month. -/
def daysInMonth (y m : Nat) : Nat :=
  if m = 2 then (if isLeap y then 29 else 28)
  else if m = 4 ∨ m = 6 ∨ m = 9 ∨ m = 11 then 30
  else 31

/-- Days before the first of a month within a year. -/
def daysBeforeMonth (y m : Nat) : Nat :=
  let base :=
    if m = 1 then 0 else if m = 2 then 31 else if m = 3 then 59 else if m = 4 then 90
    else if m = 5 then 120 else if m = 6 then 151 else if m = 7 then 181 else if m = 8 then 212
    else if m = 9 then 243 else if m = 10 then 273 else if m = 11 then 304 else 334
  if 3 ≤ m ∧ isLeap y then base + 1 else base

/-- Days from 0000-01-01 to y-01-01 in the proleptic Gregorian calendar (year 0 is a leap
year). -/
def daysBeforeYear (y : Nat) : Nat :=
  if y = 0 then 0 else 365 * y + 1 + (y - 1) / 4 - (y - 1) / 100 + (y - 1) / 400

/-- Fixed-width decimal field of a timestamp. -/
def fixedNum (s : List Char) (w : Nat) : Option (Nat × List Char) :=
  let digs := s.take w
  if digs.length = w ∧ digs.all isDigitCh then some (natOfDigits digs, s.drop w)
  else none

/-- Fractional-second field: a '.' followed by at least one digit; the first nine digits give
nanoseconds (further digits are consumed and ignored). -/
def fracField (s : List Char) : Option (Nat × List Char) :=
  match s with
  | '.' :: rest =>
    let digs := rest.takeWhile isDigitCh
    if digs.isEmpty then none
    else
      let nine := (digs ++ List.replicate 9 '0').take 9
      some (natOfDigits nine, rest.drop digs.length)
  | _ => some (0, s)

/-- Offset field: 'Z', or '+'/'-' followed by hh:mm; result in seconds east of UTC. -/
def offsetField (s : List Char) : Option Int :=
  match s with
  | ['Z'] => some 0
  | c :: rest =>
    if c = '+' ∨ c = '-' then
      match fixedNum rest 2 with
      | some (oh, ':' :: rest2) =>
        match fixedNum rest2 2 with
        | some (om, []) =>
          if oh ≤ 23 ∧ om ≤ 59 then
            some (if c = '-' then -((oh * 3600 + om * 60 : Nat) : Int)
                  else ((oh * 3600 + om * 60 : Nat) : Int))
          else none
        | _ => none
      | _ => none
    else none
  | _ => none

/-- Model of Go time.Parse(time.RFC3339, s): "YYYY-MM-DDThh:mm:ss", optional fractional
seconds, then 'Z' or a signed hh:mm offset; nanoseconds since year 1 UTC. -/
def rfc3339 (s : List Char) : Option Int :=
  match fixedNum s 4 with
  | some (y, '-' :: r1) =>
    match fixedNum r1 2 with
    | some (mo, '-' :: r2) =>
      match fixedNum r2 2 with
      | some (d, 'T' :: r3) =>
        match fixedNum r3 2 with
        | some (hh, ':' :: r4) =>
          match fixedNum r4 2 with
          | some (mi, ':' :: r5) =>
            match fixedNum r5 2 with
            | some (ss, r6) =>
              match fracField r6 with
              | some (ns, r7) =>
                match offsetField r7 with
                | some off =>
                  if 1 ≤ mo ∧ mo ≤ 12 ∧ 1 ≤ d ∧ d ≤ daysInMonth y mo ∧ hh ≤ 23 ∧
                      mi ≤ 59 ∧ ss ≤ 59 then
                    let days : Int :=
                      (daysBeforeYear y + daysBeforeMonth y mo + (d - 1) : Nat) - (366 : Int)
                    let secs : Int := days * 86400 + (hh * 3600 + mi * 60 + ss : Nat) - off
                    some (secs * 1000000000 + (ns : Nat))
                  else none
                | none => none
              | none => none
            | _ => none
          | _ => none
        | _ => none
      | _ => none
    | _ => none
  | _ => none

/-! ### The lexer state (struct parserLex) and Lex itself -/

/-- Go struct parserLex: the per-parse lexer/sink state.  The field "in" of the Go struct is
named inp here (in is a Lean keyword). -/
structure LexSt where
  now : Int := 0
  inp : List Char := []
  pos : Nat := 0
  out : Query := Query.nilq
  err : Option GoError := none
  startTime : Int := 0
  stopTime : Int := 0

/-- parserLex.Error: record the first error with its position context; later calls in the same
parse are dropped. -/
def lexError (x : LexSt) (msg : ErrMsg) : LexSt :=
  if x.err = none then
    { x with err := some ⟨msg, x.pos, x.inp.take x.pos, x.inp.drop x.pos⟩ }
  else x

/-- The startTime update shared by HandleBetween and HandleAfter: take the new bound when the
current one is zero (unset) or lies after it. -/
def envAfter (cur a : Int) : Int := if cur = 0 ∨ cur > a then a else cur

/-- The stopTime update shared by HandleBetween and HandleBefore: take the new bound when the
current one is zero (unset) or lies before it. -/
def envBefore (cur b : Int) : Int := if cur = 0 ∨ cur < b then b else cur

/-- parserLex.HandleBetween. -/
def lexHandleBetween (x : LexSt) (startT stopT : Int) : LexSt :=
  { x with startTime := envAfter x.startTime startT, stopTime := envBefore x.stopTime stopT }

/-- parserLex.HandleAfter. -/
def lexHandleAfter (x : LexSt) (a : Int) : LexSt :=
  { x with startTime := envAfter x.startTime a }

/-- parserLex.HandleBefore. -/
def lexHandleBefore (x : LexSt) (b : Int) : LexSt :=
  { x with stopTime := envBefore x.stopTime b }

/-- parserLex.Lex: skip whitespace, try the keyword table, else scan a literal run and classify
it (the switch on isTime / isIP / isDuration / nonempty / end-of-input), else emit a
punctuation character or -1.  Returns the token code, the updated yylval and the updated lexer
state. -/
def lexStep (x0 : LexSt) (yylval : PSym) : Int × PSym × LexSt :=
  let pos := skipSpaces x0.inp x0.pos
  let x : LexSt := { x0 with pos := pos }
  match kwFind tokens (x.inp.drop pos) with
  | some (len, code) => (code, yylval, { x with pos := pos + len })
  | none =>
    let r := scanRun (x.inp.drop pos)
    let part := (x.inp.drop pos).take r.k
    let pos2 := pos + r.k
    let x : LexSt := { x with pos := pos2 }
    if r.isTime then
      match rfc3339 part with
      | some t => (tokTIME, { yylval with time := t }, x)
      | none => (tokTIME, { yylval with time := 0 }, lexError x (ErrMsg.badTime part))
    else if r.isIP then
      match goParseIP part with
      | none => (-1, { yylval with ip := [] }, lexError x (ErrMsg.badIP part))
      | some b =>
        match goTo4 b with
        | some b4 => (tokIP, { yylval with ip := b4 }, x)
        | none => (tokIP, { yylval with ip := b }, x)
    else if r.isDur then
      match goParseDur part with
      | some d => (tokDUR, { yylval with dur := d }, x)
      | none => (tokDUR, { yylval with dur := 0 }, lexError x (ErrMsg.badDur part))
    else if r.k ≠ 0 then
      match atoi part with
      | some n => (tokNUM, { yylval with num := n }, x)
      | none => (-1, yylval, x)
    else if x.inp.length ≤ pos2 then (0, yylval, x)
    else
      let c := (x.inp.drop pos2).headD ' '
      if c = ':' ∨ c = '.' ∨ c = '(' ∨ c = ')' ∨ c = '/' then
        ((c.toNat : Int), yylval, { x with pos := pos2 + 1 })
      else (-1, yylval, x)

/-! ### ipsFromNet and net.CIDRMask -/

/-- ipsFromNet (source lines 100-111): length check, then per byte from[i] = ip[i] AND mask[i]
and to[i] = ip[i] OR (NOT mask[i]); the Go index loop over equal-length slices is rendered with
zipWith, and the byte complement of m as xor with 255. -/
def ipsFromNet (ip mask : List Nat) : Except ErrMsg (List Nat × List Nat) :=
  if ip.length ≠ mask.length ∨ (ip.length ≠ 4 ∧ ip.length ≠ 16) then
    Except.error (ErrMsg.badIPOrMask ip mask)
  else
    Except.ok (List.zipWith (fun a m => a &&& m) ip mask,
               List.zipWith (fun a m => a ||| Nat.xor m 255) ip mask)

/-- The byte-building loop of Go net.CIDRMask: l bytes, the first n bits set. -/
def buildMaskBytes : Nat → Nat → List Nat
  | _, 0 => []
  | n, l + 1 =>
    if 8 ≤ n then 255 :: buildMaskBytes (n - 8) l
    else Nat.xor 255 (255 >>> n) :: buildMaskBytes 0 l

/-- Go net.CIDRMask(ones, bits): nil unless bits is 32 or 128 and 0 ≤ ones ≤ bits. -/
def goCIDRMask (ones bits : Int) : Option (List Nat) :=
  if bits ≠ 32 ∧ bits ≠ 128 then none
  else if ones < 0 ∨ bits < ones then none
  else some (buildMaskBytes ones.toNat (bits.toNat / 8))

/-! ### The position-set sentinels, index identity and the time-query operations -/

/-- Modelled from the spec: the position-set algebra of the index collaborator (package base,
not under src/) exposes sentinel values base.AllPositions ("all positions") and
base.NoPositions ("no positions") besides ordinary position lists; timeQuery.LookupIn only ever
produces the two sentinels. -/
inductive Positions where
  | allPositions
  | noPositions
  | posList (l : List Int)
deriving DecidableEq

/-- Modelled from the spec: the index collaborator (package indexfile, not under src/) as far as
timeQuery.LookupIn consults it — "Index identity exposes a name from which a trailing numeric
component is parsed as a microsecond-resolution timestamp". -/
structure IndexFile where
  name : List Char

/-- Go filepath.Base: empty path gives ".", trailing slashes are dropped, the last component is
returned, and an all-slash path gives "/". -/
def filepathBase (p : List Char) : List Char :=
  if p.isEmpty then ['.']
  else
    let q := (p.reverse.dropWhile (fun c => c == '/')).reverse
    if q.isEmpty then ['/']
    else (q.reverse.takeWhile (fun c => !(c == '/'))).reverse

/-- The identity-embedded timestamp of an index file: its basename parsed as a decimal int64
count of microseconds, converted by time.Unix(0, intval*1000) (the int64 multiplication wraps
as in Go). -/
def indexFileTime (index : IndexFile) : Option Int :=
  (atoi (filepathBase index.name)).map (fun intval => goUnixEpochNs + wrap64 (intval * 1000))

/-- timeQuery.LookupIn (source lines 1036-1072): parse the file's identity timestamp, widen the
present bounds by one minute, and return the no-positions sentinel when the file time falls
outside, the all-positions sentinel otherwise; per-record data is never consulted.  The error
carries the unparsable basename. -/
def timeQueryLookupIn (a0 a1 : Int) (index : IndexFile) : Except (List Char) Positions :=
  let last := filepathBase index.name
  match indexFileTime index with
  | none => Except.error last
  | some fileTime =>
    let hasStartTime := a0 ≠ 0
    let startTime := a0 - minuteNs
    let hasStopTime := a1 ≠ 0
    let stopTime := a1 + minuteNs
    if hasStartTime ∧ hasStopTime then
      if fileTime < startTime ∨ stopTime < fileTime then Except.ok Positions.noPositions
      else Except.ok Positions.allPositions
    else if hasStartTime ∧ fileTime < startTime then Except.ok Positions.noPositions
    else if hasStopTime ∧ stopTime < fileTime then Except.ok Positions.noPositions
    else Except.ok Positions.allPositions

/-- timeQuery.GetTimeSpan (source lines 1082-1101): widen the supplied bound pair to cover this
leaf, with the same one-minute slack as LookupIn; a zero component of the leaf is an absent
bound and contributes nothing. -/
def timeSpanLeaf (a0 a1 : Int) (st : Int × Int) : Int × Int :=
  let hasStartTime := a0 ≠ 0
  let startTime2 := a0 - minuteNs
  let hasStopTime := a1 ≠ 0
  let stopTime2 := a1 + minuteNs
  let startTime := if hasStartTime ∧ (st.1 = 0 ∨ st.1 > startTime2) then startTime2 else st.1
  let stopTime := if hasStopTime ∧ (st.2 = 0 ∨ st.2 < stopTime2) then stopTime2 else st.2
  (startTime, stopTime)

mutual
/-- GetTimeSpan of every Query variant: scalar and IP leaves (and the nil interface value,
whose method could never actually be called) return the bounds unchanged; a time leaf widens
them via timeSpanLeaf; union and intersect fold GetTimeSpan over their children left to
right. -/
def getTimeSpan : Query → Int × Int → Int × Int
  | Query.portQ _, st => st
  | Query.vlanQ _, st => st
  | Query.mplsQ _, st => st
  | Query.protocolQ _, st => st
  | Query.ipQ _ _, st => st
  | Query.nilq, st => st
  | Query.timeQ a0 a1, st => timeSpanLeaf a0 a1 st
  | Query.unionQ qs, st => getTimeSpanL qs st
  | Query.intersectQ qs, st => getTimeSpanL qs st

/-- The for-loop of unionQuery.GetTimeSpan and intersectQuery.GetTimeSpan (identical bodies):
thread the bound pair through every child. -/
def getTimeSpanL : List Query → Int × Int → Int × Int
  | [], st => st
  | q :: qs, st => getTimeSpanL qs (getTimeSpan q st)
end

mutual
/-- The time leaves of a query tree, in left-to-right order. -/
def timeLeaves : Query → List (Int × Int)
  | Query.portQ _ => []
  | Query.vlanQ _ => []
  | Query.mplsQ _ => []
  | Query.protocolQ _ => []
  | Query.ipQ _ _ => []
  | Query.nilq => []
  | Query.timeQ a0 a1 => [(a0, a1)]
  | Query.unionQ qs => timeLeavesL qs
  | Query.intersectQ qs => timeLeavesL qs

/-- Time leaves of a list of query trees. -/
def timeLeavesL : List Query → List (Int × Int)
  | [] => []
  | q :: qs => timeLeaves q ++ timeLeavesL qs
end

/-! ### The goyacc parse tables of y.go, verbatim -/

def parserExca : List Int := [-1, 1, 1, -1, -2, 0]

def parserPrivate : Int := 57344

def parserLast : Int := 44

def parserAct : List Int :=
  [26, 28, 27, 39, 35, 33, 17, 18, 22, 21,
   20, 40, 24, 4, 5, 3, 29, 30, 9, 34,
   11, 12, 13, 14, 15, 8, 36, 6, 7, 16,
   37, 19, 2, 31, 32, 10, 17, 18, 38, 41,
   23, 1, 0, 25]

def parserPact : List Int :=
  [9, -1000, 29, -1000, 10, -12, -13, -14, 34, -9,
   9, -1000, -1000, -1000, -22, -22, -22, 9, 9, -1000,
   -1000, -1000, -1000, -17, -6, -1, -1000, -1000, 13, -1000,
   31, -1000, -1000, -1000, -19, -10, -1000, -1000, -22, -1000,
   -1000, -1000]

def parserPgo : List Int := [0, 41, 32, 15, 0]

def parserR1 : List Int :=
  [0, 1, 2, 2, 2, 3, 3, 3, 3, 3,
   3, 3, 3, 3, 3, 3, 3, 3, 3, 4,
   4]

def parserR2 : List Int :=
  [0, 1, 1, 3, 3, 2, 2, 2, 2, 3,
   4, 4, 3, 1, 1, 1, 2, 2, 4, 1,
   2]

def parserChk : List Int :=
  [-1000, -1, -2, -3, 4, 5, 18, 19, 16, 9,
   26, 11, 12, 13, 14, 15, 20, 7, 8, 21,
   22, 22, 22, 6, 21, -2, -4, 24, 23, -4,
   -4, -3, -3, 22, 25, 10, 27, 17, 7, 22,
   21, -4]

def parserDef : List Int :=
  [0, -2, 1, 2, 0, 0, 0, 0, 0, 0,
   0, 13, 14, 15, 0, 0, 0, 0, 0, 5,
   6, 7, 8, 0, 0, 0, 16, 19, 0, 17,
   0, 3, 4, 9, 0, 0, 12, 20, 0, 10,
   11, 18]

def parserTok1 : List Int :=
  [1, 3, 3, 3, 3, 3, 3, 3, 3, 3,
   3, 3, 3, 3, 3, 3, 3, 3, 3, 3,
   3, 3, 3, 3, 3, 3, 3, 3, 3, 3,
   3, 3, 3, 3, 3, 3, 3, 3, 3, 3,
   26, 27, 3, 3, 3, 3, 3, 25]

def parserTok2 : List Int :=
  [2, 3, 4, 5, 6, 7, 8, 9, 10, 11,
   12, 13, 14, 15, 16, 17, 18, 19, 20, 21,
   22, 23, 24]

def parserTok3 : List Int := [0]

def parserFlag : Int := -1000

def parserEofCode : Int := 1

def parserErrCode : Int := 2

/-- Total table indexing: Go would panic on an out-of-range index; no execution of the
generated parser indexes a table out of range, and the default 0 is never consulted on the
runs reasoned about here. -/
def tg (l : List Int) (i : Int) : Int :=
  if 0 ≤ i then l.getD i.toNat 0 else 0

/-! ### The parser driver (func (parserrcvr *parserParserImpl) Parse of yaccpar) -/

/-- The lexer interface the generated driver is written against (interface parserLexer plus the
two accesses the action code makes through the *parserLex type assertion: the now field read by
the "DURATION AGO" action and the out field written by the top-level action). -/
structure LexerOps (σ : Type) where
  lex : σ → PSym → Int × PSym × σ
  error : σ → ErrMsg → σ
  handleBetween : σ → Int → Int → σ
  handleAfter : σ → Int → σ
  handleBefore : σ → Int → σ
  now : σ → Int
  setOut : σ → Query → σ

/-- The three goto targets of the driver loop: parserstack (push the current state/value),
parsernewstate (try a shift), parserdefault (default action: accept, error or reduce). -/
inductive Phase where
  | pstack
  | pnewstate
  | pdefault
deriving DecidableEq

/-- A configuration of the driver: the semantic-value stack parserS (as a total function from
index to entry, matching a Go slice that only grows), the stack pointer parserp, parserVAL,
parserrcvr.lval, the automaton state, the lookahead (parserrcvr.char and its internal numbering
parsertoken), Errflag, Nerrs, the lexer state and the current goto target. -/
structure MCfg (σ : Type) where
  S : Int → PSym
  p : Int
  val : PSym
  lval : PSym
  state : Int
  char : Int
  tok : Int
  errflag : Int
  nerrs : Int
  lexst : σ
  phase : Phase

/-- Write one stack slot. -/
def updS (S : Int → PSym) (i : Int) (v : PSym) : Int → PSym :=
  fun j => if j = i then v else S j

/-- parserlex1: fetch a token from the lexer and translate the character code to the internal
token numbering through parserTok1/parserTok2/parserTok3. -/
def lex1 {σ : Type} (ops : LexerOps σ) (st : σ) (lval : PSym) : Int × Int × PSym × σ :=
  let r := ops.lex st lval
  let char := r.1
  let token :=
    if char ≤ 0 then tg parserTok1 0
    else if char < 48 then tg parserTok1 char
    else if 57344 ≤ char ∧ char < 57367 then tg parserTok2 (char - 57344)
    else 0
  let token := if token = 0 then tg parserTok2 1 else token
  (char, token, r.2.1, r.2.2)

/-- Find the exception-table row of a state (the first scanning loop on parserExca). -/
def excaRow : List Int → Int → List Int
  | a :: b :: rest, state =>
    if a = -1 ∧ b = state then a :: b :: rest else excaRow rest state
  | l, _ => l

/-- Scan an exception-table row for a token (the second loop on parserExca). -/
def excaScan : List Int → Int → Int
  | a :: b :: rest, token => if a < 0 ∨ a = token then b else excaScan rest token
  | _, _ => 0

/-- The parserExca lookup of the default action when parserDef gives -2. -/
def excaLookup (state token : Int) : Int :=
  match excaRow parserExca state with
  | _ :: _ :: rest => excaScan rest token
  | _ => 0

/-- The error-recovery pop loop: walk the stack downwards looking for a state with a shift on
the error token; returns the shifted-to state and the stack index, or none when the stack is
exhausted (abort).  Fuel is the stack depth plus one. -/
def findErrShift (S : Int → PSym) : Nat → Int → Option (Int × Int)
  | 0, _ => none
  | fuel + 1, p =>
    if p < 0 then none
    else
      let n := tg parserPact (S p).yys + parserErrCode
      if 0 ≤ n ∧ n < parserLast ∧ tg parserChk (tg parserAct n) = parserErrCode then
        some (tg parserAct n, p)
      else findErrShift S fuel (p - 1)

/-- The action switch of the driver ("switch parsernt"): the literal code of the grammar rules
of parser.y.  d is the parserDollar slice (d i reads parserDollar[i]), val is parserVAL at
entry (a copy of parserS[parserp+1]).  The boolean negCheck guards exactly the "num < 0"
disjuncts of the four range validations (the source has them unconditionally, i.e. negCheck =
true); theorem c10 proves the guarded and unguarded machines agree on lexed input, which is the
precise sense in which those disjuncts are unreachable. -/
def runAction {σ : Type} (ops : LexerOps σ) (negCheck : Bool) (nt : Int)
    (d : Int → PSym) (val : PSym) (st : σ) : PSym × σ :=
  if nt = 1 then (val, ops.setOut st (d 1).query)
  else if nt = 3 then ({ val with query := Query.intersectQ [(d 1).query, (d 3).query] }, st)
  else if nt = 4 then ({ val with query := Query.unionQ [(d 1).query, (d 3).query] }, st)
  else if nt = 5 then ({ val with query := Query.ipQ (d 2).ip (d 2).ip }, st)
  else if nt = 6 then
    ({ val with query := Query.portQ (uint16 (d 2).num) },
     if (negCheck ∧ (d 2).num < 0) ∨ 65536 ≤ (d 2).num then
       ops.error st (ErrMsg.invalidPort (d 2).num) else st)
  else if nt = 7 then
    ({ val with query := Query.vlanQ (uint16 (d 2).num) },
     if (negCheck ∧ (d 2).num < 0) ∨ 65536 ≤ (d 2).num then
       ops.error st (ErrMsg.invalidVlan (d 2).num) else st)
  else if nt = 8 then
    ({ val with query := Query.mplsQ (uint32 (d 2).num) },
     if (negCheck ∧ (d 2).num < 0) ∨ 1048576 ≤ (d 2).num then
       ops.error st (ErrMsg.invalidMpls (d 2).num) else st)
  else if nt = 9 then
    ({ val with query := Query.protocolQ (byteWrap (d 3).num) },
     if (negCheck ∧ (d 3).num < 0) ∨ 256 ≤ (d 3).num then
       ops.error st (ErrMsg.invalidProto (d 3).num) else st)
  else if nt = 10 then
    let mask := goCIDRMask (d 4).num ((d 2).ip.length * 8)
    let st := if mask = none then ops.error st (ErrMsg.badCidr (d 2).ip (d 4).num) else st
    match ipsFromNet (d 2).ip (mask.getD []) with
    | Except.error e => ({ val with query := Query.ipQ [] [] }, ops.error st e)
    | Except.ok ft => ({ val with query := Query.ipQ ft.1 ft.2 }, st)
  else if nt = 11 then
    match ipsFromNet (d 2).ip (d 4).ip with
    | Except.error e => ({ val with query := Query.ipQ [] [] }, ops.error st e)
    | Except.ok ft => ({ val with query := Query.ipQ ft.1 ft.2 }, st)
  else if nt = 12 then ({ val with query := (d 2).query }, st)
  else if nt = 13 then ({ val with query := Query.protocolQ 6 }, st)
  else if nt = 14 then ({ val with query := Query.protocolQ 17 }, st)
  else if nt = 15 then ({ val with query := Query.protocolQ 1 }, st)
  else if nt = 16 then
    let st := ops.handleBefore st (d 2).time
    ({ val with query := Query.timeQ 0 (d 2).time }, st)
  else if nt = 17 then
    let st := ops.handleAfter st (d 2).time
    ({ val with query := Query.timeQ (d 2).time 0 }, st)
  else if nt = 18 then
    ({ val with query := Query.timeQ (d 2).time (d 4).time },
     ops.handleBetween
       (if (d 4).time < (d 2).time then
          ops.error st (ErrMsg.betweenOrder (d 2).time (d 4).time) else st)
       (d 2).time (d 4).time)
  else if nt = 19 then ({ val with time := (d 1).time }, st)
  else if nt = 20 then ({ val with time := ops.now st - (d 1).dur }, st)
  else (val, st)

/-- A reduction by production n: pop parserR2[n] entries, reload parserVAL, consult the goto
tables for the next state, run the action switch, and return to parserstack. -/
def reduceStep {σ : Type} (ops : LexerOps σ) (negCheck : Bool) (c : MCfg σ) (n : Int) :
    MCfg σ ⊕ (Int × σ) :=
  let nt := n
  let pt := c.p
  let p := c.p - tg parserR2 n
  let val := c.S (p + 1)
  let n1 := tg parserR1 n
  let g := tg parserPgo n1
  let j := g + (c.S p).yys + 1
  let state :=
    if parserLast ≤ j then tg parserAct g
    else if tg parserChk (tg parserAct j) = -n1 then tg parserAct j
    else tg parserAct g
  let d : Int → PSym := fun i => c.S (pt - tg parserR2 nt + i)
  let r := runAction ops negCheck nt d val c.lexst
  Sum.inl { c with p := p, val := r.1, state := state, lexst := r.2, phase := Phase.pstack }

/-- One pass through the driver's goto structure: from the current goto target, either a new
configuration or the return value of Parse paired with the final lexer state. -/
def stepFn {σ : Type} (ops : LexerOps σ) (negCheck : Bool) (c : MCfg σ) :
    MCfg σ ⊕ (Int × σ) :=
  match c.phase with
  | Phase.pstack =>
    let p := c.p + 1
    Sum.inl { c with
              p := p,
              S := updS c.S p ({ c.val with yys := c.state }),
              phase := Phase.pnewstate }
  | Phase.pnewstate =>
    let n := tg parserPact c.state
    if n ≤ parserFlag then Sum.inl { c with phase := Phase.pdefault }
    else
      let l :=
        if c.char < 0 then lex1 ops c.lexst c.lval else (c.char, c.tok, c.lval, c.lexst)
      let n := n + l.2.1
      if n < 0 ∨ parserLast ≤ n then
        Sum.inl { c with
                  char := l.1,
                  tok := l.2.1,
                  lval := l.2.2.1,
                  lexst := l.2.2.2,
                  phase := Phase.pdefault }
      else
        let n := tg parserAct n
        if tg parserChk n = l.2.1 then
          Sum.inl { c with
                    char := -1,
                    tok := -1,
                    val := l.2.2.1,
                    lval := l.2.2.1,
                    lexst := l.2.2.2,
                    state := n,
                    errflag := if 0 < c.errflag then c.errflag - 1 else c.errflag,
                    phase := Phase.pstack }
        else
          Sum.inl { c with
                    char := l.1,
                    tok := l.2.1,
                    lval := l.2.2.1,
                    lexst := l.2.2.2,
                    phase := Phase.pdefault }
  | Phase.pdefault =>
    let n0 := tg parserDef c.state
    let l :=
      if n0 = -2 then
        (if c.char < 0 then lex1 ops c.lexst c.lval else (c.char, c.tok, c.lval, c.lexst))
      else (c.char, c.tok, c.lval, c.lexst)
    let n1 := if n0 = -2 then excaLookup c.state l.2.1 else n0
    if n0 = -2 ∧ n1 < 0 then Sum.inr (0, l.2.2.2)
    else
      let c : MCfg σ := { c with char := l.1, tok := l.2.1, lval := l.2.2.1, lexst := l.2.2.2 }
      if n1 = 0 then
        if c.errflag = 0 ∨ c.errflag = 1 ∨ c.errflag = 2 then
          let lexst := if c.errflag = 0 then ops.error c.lexst ErrMsg.synErr else c.lexst
          let nerrs := if c.errflag = 0 then c.nerrs + 1 else c.nerrs
          match findErrShift c.S (c.p.toNat + 1) c.p with
          | some sp =>
            Sum.inl { c with
                      lexst := lexst,
                      nerrs := nerrs,
                      errflag := 3,
                      state := sp.1,
                      p := sp.2,
                      phase := Phase.pstack }
          | none => Sum.inr (1, lexst)
        else if c.errflag = 3 then
          if c.tok = parserEofCode then Sum.inr (1, c.lexst)
          else Sum.inl { c with char := -1, tok := -1, phase := Phase.pnewstate }
        else reduceStep ops negCheck c n1
      else reduceStep ops negCheck c n1

/-- The driver loop with explicit fuel (Go's loop has no termination proof; every concrete
parse below terminates well within the supplied fuel, and none on fuel exhaustion never arises
in any theorem's conclusion). -/
def mrun {σ : Type} (ops : LexerOps σ) (negCheck : Bool) : Nat → MCfg σ → Option (Int × σ)
  | 0, _ => none
  | fuel + 1, c =>
    match stepFn ops negCheck c with
    | Sum.inl c2 => mrun ops negCheck fuel c2
    | Sum.inr r => some r

/-- The initial configuration of Parse: state 0, empty lookahead, stack pointer -1, zero
values everywhere, about to push. -/
def initCfg {σ : Type} (st : σ) : MCfg σ :=
  { S := fun _ => {},
    p := -1,
    val := {},
    lval := {},
    state := 0,
    char := -1,
    tok := -1,
    errflag := 0,
    nerrs := 0,
    lexst := st,
    phase := Phase.pstack }

/-- parserParse: run the driver from the initial configuration. -/
def parserParse {σ : Type} (ops : LexerOps σ) (negCheck : Bool) (fuel : Nat) (st : σ) :
    Option (Int × σ) :=
  mrun ops negCheck fuel (initCfg st)

/-- The parserLexer instance of *parserLex. -/
def lexOps : LexerOps LexSt where
  lex := lexStep
  error := lexError
  handleBetween := lexHandleBetween
  handleAfter := lexHandleAfter
  handleBefore := lexHandleBefore
  now := LexSt.now
  setOut := fun st q => { st with out := q }

/-- The parserLex value constructed by parse for an input (now is time.Now(), passed
explicitly here). -/
def mkLexSt (inp : List Char) (now : Int) : LexSt :=
  { now := now, inp := inp }

/-- func parse (source lines 256-263): run the parser; if any error was recorded return it
with a nil query and zero times, otherwise return the built query and the accumulated
envelope. -/
def parse (fuel : Nat) (inp : List Char) (now : Int) :
    Option (Query × Int × Int × Option GoError) :=
  match parserParse lexOps true fuel (mkLexSt inp now) with
  | none => none
  | some r =>
    if r.2.err ≠ none then some (Query.nilq, 0, 0, r.2.err)
    else some (r.2.out, r.2.startTime, r.2.stopTime, none)

/-! ### A token-list lexer: a second parserLexer instance, used to reason about the grammar on
arbitrary token values (the Go driver is written against the parserLexer interface, so any
instance exercises the same tables and actions). -/

/-- A pre-lexed token: the keyword and punctuation tokens carry nothing, the literal tokens
carry the decoded value their lexer branch would store into yylval. -/
inductive Tk where
  | host | port | proto | andK | orK | net | mask | tcp | udp | icmp
  | beforeK | afterK | ipp | ago | vlan | mpls | between | lparen | rparen | slash
  | num (n : Int) | ipv (b : List Nat) | dur (d : Int) | timeT (t : Int)

/-- The character/token code Lex would return for a token. -/
def tkCode : Tk → Int
  | Tk.host => tokHOST
  | Tk.port => tokPORT
  | Tk.proto => tokPROTO
  | Tk.andK => tokAND
  | Tk.orK => tokOR
  | Tk.net => tokNET
  | Tk.mask => tokMASK
  | Tk.tcp => tokTCP
  | Tk.udp => tokUDP
  | Tk.icmp => tokICMP
  | Tk.beforeK => tokBEFORE
  | Tk.afterK => tokAFTER
  | Tk.ipp => tokIPP
  | Tk.ago => tokAGO
  | Tk.vlan => tokVLAN
  | Tk.mpls => tokMPLS
  | Tk.between => tokBETWEEN
  | Tk.lparen => 40
  | Tk.rparen => 41
  | Tk.slash => 47
  | Tk.num _ => tokNUM
  | Tk.ipv _ => tokIP
  | Tk.dur _ => tokDUR
  | Tk.timeT _ => tokTIME

/-- The yylval update of a token: literal tokens store their value in the matching field,
exactly as the corresponding branch of Lex does; all others leave yylval untouched. -/
def tkSet (t : Tk) (yylval : PSym) : PSym :=
  match t with
  | Tk.num n => { yylval with num := n }
  | Tk.ipv b => { yylval with ip := b }
  | Tk.dur d => { yylval with dur := d }
  | Tk.timeT tt => { yylval with time := tt }
  | _ => yylval

/-- State of the token-list lexer: the remaining tokens plus the same sink and envelope fields
as parserLex (error recording is the same first-error-wins discipline, without the character
position parserLex adds). -/
structure TokSt where
  toks : List Tk := []
  now : Int := 0
  out : Query := Query.nilq
  err : Option ErrMsg := none
  startTime : Int := 0
  stopTime : Int := 0

/-- The parserLexer instance over a token list: end of list behaves as end of input (Lex
returns 0 forever). -/
def tokOps : LexerOps TokSt where
  lex := fun st yylval =>
    match st.toks with
    | [] => (0, yylval, st)
    | t :: rest => (tkCode t, tkSet t yylval, { st with toks := rest })
  error := fun st m => if st.err = none then { st with err := some m } else st
  handleBetween := fun st a b =>
    { st with startTime := envAfter st.startTime a, stopTime := envBefore st.stopTime b }
  handleAfter := fun st a => { st with startTime := envAfter st.startTime a }
  handleBefore := fun st b => { st with stopTime := envBefore st.stopTime b }
  now := TokSt.now
  setOut := fun st q => { st with out := q }

/-! ### Helper lemmas -/

/-- A number is bounded by its bitwise or with anything. -/
theorem le_or_self (a b : Nat) : a ≤ a ||| b :=
  Nat.le_of_testBit (by intro i h; simp [Nat.testBit_or, h])

/-- Pointwise comparison of two zipWiths of the same lists. -/
theorem forall₂_zipWith_le {f g : Nat → Nat → Nat} (h : ∀ a b, f a b ≤ g a b) :
    ∀ (l1 l2 : List Nat),
      List.Forall₂ (· ≤ ·) (List.zipWith f l1 l2) (List.zipWith g l1 l2)
  | [], _ => by simp
  | _ :: _, [] => by simp
  | a :: l1, b :: l2 => by
    simpa using List.Forall₂.cons (h a b) (forall₂_zipWith_le h l1 l2)

/-! ### C5 -/

/-- C5: for equal byte lengths 4 or 16, ipsFromNet builds from[i] = ip[i] AND mask[i] and
to[i] = ip[i] OR NOT mask[i] per byte, and from is bytewise at most to; any other length
combination is an error. -/
theorem c5 :
    (∀ (ip mask : List Nat), ip.length = mask.length → (ip.length = 4 ∨ ip.length = 16) →
        ipsFromNet ip mask =
          Except.ok (List.zipWith (fun a m => a &&& m) ip mask,
                     List.zipWith (fun a m => a ||| Nat.xor m 255) ip mask) ∧
        List.Forall₂ (· ≤ ·) (List.zipWith (fun a m => a &&& m) ip mask)
          (List.zipWith (fun a m => a ||| Nat.xor m 255) ip mask)) ∧
    (∀ (ip mask : List Nat), ip.length ≠ mask.length ∨ (ip.length ≠ 4 ∧ ip.length ≠ 16) →
        ipsFromNet ip mask = Except.error (ErrMsg.badIPOrMask ip mask)) := by
  constructor
  · intro ip mask hlen hfam
    constructor
    · unfold ipsFromNet
      rw [if_neg]
      push_neg
      exact ⟨hlen, fun h4 => by omega⟩
    · exact forall₂_zipWith_le
        (fun a b => le_trans Nat.and_le_left (le_or_self a (Nat.xor b 255))) ip mask
  · intro ip mask h
    unfold ipsFromNet
    rw [if_pos]
    rcases h with h | h
    · exact Or.inl h
    · exact Or.inr h

/-- Witness for C5: the hypotheses hold and its conclusion is obtained at the concrete net
1.2.3.4 mask 255.255.254.0 from the repository's tests. -/
theorem c5_witness :
    (([1, 2, 3, 4] : List Nat).length = ([255, 255, 254, 0] : List Nat).length ∧
      (([1, 2, 3, 4] : List Nat).length = 4 ∨ ([1, 2, 3, 4] : List Nat).length = 16)) ∧
    ipsFromNet [1, 2, 3, 4] [255, 255, 254, 0] =
      Except.ok (List.zipWith (fun a m => a &&& m) [1, 2, 3, 4] [255, 255, 254, 0],
                 List.zipWith (fun a m => a ||| Nat.xor m 255) [1, 2, 3, 4]
                   [255, 255, 254, 0]) :=
  ⟨⟨rfl, Or.inl rfl⟩, (c5.1 [1, 2, 3, 4] [255, 255, 254, 0] rfl (Or.inl rfl)).1⟩

/-! ### C3 -/

/-- C3: a TimeRange leaf with a parseable file identity never consults per-record data — it
returns the all-positions sentinel exactly when the file's identity-embedded timestamp lies in
the interval widened by one minute on each present bound (an absent, i.e. zero, bound being
unbounded), and the no-positions sentinel otherwise; no other position set can result. -/
theorem c3 (a0 a1 : Int) (idx : IndexFile) (ft : Int)
    (h : indexFileTime idx = some ft) :
    timeQueryLookupIn a0 a1 idx =
      Except.ok (if (a0 = 0 ∨ a0 - minuteNs ≤ ft) ∧ (a1 = 0 ∨ ft ≤ a1 + minuteNs)
                 then Positions.allPositions else Positions.noPositions) := by
  unfold timeQueryLookupIn
  rw [h]
  dsimp only
  split_ifs <;> first | rfl | (exfalso; omega)

/-- Witness for C3: a file named 123 (123 microseconds after the Unix epoch) with both bounds
absent is fully selected. -/
theorem c3_witness :
    indexFileTime ⟨"123".data⟩ = some (goUnixEpochNs + 123000) ∧
    timeQueryLookupIn 0 0 ⟨"123".data⟩ = Except.ok Positions.allPositions := by
  refine ⟨by decide, ?_⟩
  rw [c3 0 0 ⟨"123".data⟩ (goUnixEpochNs + 123000) (by decide)]
  rfl

/-! ### C6 -/

/-- C6: within one parse call the error sink is first-error-wins and idempotent — a first
error is recorded with its position context, any later error leaves the recorded one untouched
— and at completion parse either returns the recorded first error with a nil tree and zero
times, or a tree with no error; never both. -/
theorem c6 :
    (∀ (x : LexSt) (m : ErrMsg), x.err = none →
        (lexError x m).err = some ⟨m, x.pos, x.inp.take x.pos, x.inp.drop x.pos⟩) ∧
    (∀ (x : LexSt) (m : ErrMsg) (e : GoError), x.err = some e → lexError x m = x) ∧
    (∀ (fuel : Nat) (inp : List Char) (now : Int) (q : Query) (a b : Int) (e : GoError),
        parse fuel inp now = some (q, a, b, some e) → q = Query.nilq ∧ a = 0 ∧ b = 0) ∧
    (∀ (fuel : Nat) (inp : List Char) (now : Int) (ret : Int) (fin : LexSt),
        parserParse lexOps true fuel (mkLexSt inp now) = some (ret, fin) → fin.err ≠ none →
        parse fuel inp now = some (Query.nilq, 0, 0, fin.err)) := by
  refine ⟨?_, ?_, ?_, ?_⟩
  · intro x m hx
    simp [lexError, hx]
  · intro x m e hx
    simp [lexError, hx]
  · intro fuel inp now q a b e hp
    unfold parse at hp
    rcases hr : parserParse lexOps true fuel (mkLexSt inp now) with _ | r <;> rw [hr] at hp <;>
      dsimp only at hp
    · exact Option.noConfusion hp
    · by_cases he : r.2.err = none
      · rw [if_neg (fun hne => hne he)] at hp
        simp only [Option.some.injEq, Prod.mk.injEq] at hp
        exact absurd hp.2.2.2 (by simp)
      · rw [if_pos he] at hp
        simp only [Option.some.injEq, Prod.mk.injEq] at hp
        exact ⟨hp.1.symm, hp.2.1.symm, hp.2.2.1.symm⟩
  · intro fuel inp now ret fin hp he
    unfold parse
    rw [hp]
    simp [he]

/-- Witness for C6: recording an error on a fresh lexer state stores it with its position
context. -/
theorem c6_witness :
    (mkLexSt "x".data 0).err = none ∧
    (lexError (mkLexSt "x".data 0) ErrMsg.synErr).err =
      some ⟨ErrMsg.synErr, 0, [], "x".data⟩ :=
  ⟨rfl, c6.1 (mkLexSt "x".data 0) ErrMsg.synErr rfl⟩

/-! ### C7 and C8 -/

/-- Recording an error on an error-free sink is observable, and recording nothing is not. -/
theorem rangeErr_iff (st : LexSt) (hErr : st.err = none) (P : Prop) [Decidable P]
    (m : ErrMsg) : (if P then lexError st m else st).err ≠ none ↔ P := by
  split_ifs with h
  · simp [lexError, hErr, h]
  · simp [hErr, h]

/-- C7: the range validations of the grammar actions — port and vlan record an error exactly
for values outside [0, 65536), mpls outside [0, 2^20), ip proto outside [0, 256); in-range
values are accepted and the leaf is built from the (wrapped) value. -/
theorem c7 (st : LexSt) (d : Int → PSym) (val : PSym) (hErr : st.err = none) :
    ((runAction lexOps true 6 d val st).2.err ≠ none ↔
      ((d 2).num < 0 ∨ 65536 ≤ (d 2).num)) ∧
    ((runAction lexOps true 6 d val st).1.query = Query.portQ (uint16 (d 2).num)) ∧
    ((runAction lexOps true 7 d val st).2.err ≠ none ↔
      ((d 2).num < 0 ∨ 65536 ≤ (d 2).num)) ∧
    ((runAction lexOps true 7 d val st).1.query = Query.vlanQ (uint16 (d 2).num)) ∧
    ((runAction lexOps true 8 d val st).2.err ≠ none ↔
      ((d 2).num < 0 ∨ 1048576 ≤ (d 2).num)) ∧
    ((runAction lexOps true 8 d val st).1.query = Query.mplsQ (uint32 (d 2).num)) ∧
    ((runAction lexOps true 9 d val st).2.err ≠ none ↔
      ((d 3).num < 0 ∨ 256 ≤ (d 3).num)) ∧
    ((runAction lexOps true 9 d val st).1.query = Query.protocolQ (byteWrap (d 3).num)) := by
  refine ⟨?_, ?_, ?_, ?_, ?_, ?_, ?_, ?_⟩ <;>
    simp only [runAction, show (6 : Int) ≠ 1 by decide, show (6 : Int) ≠ 3 by decide,
      show (6 : Int) ≠ 4 by decide, show (6 : Int) ≠ 5 by decide,
      show (7 : Int) ≠ 1 by decide, show (7 : Int) ≠ 3 by decide,
      show (7 : Int) ≠ 4 by decide, show (7 : Int) ≠ 5 by decide,
      show (7 : Int) ≠ 6 by decide, show (8 : Int) ≠ 1 by decide,
      show (8 : Int) ≠ 3 by decide, show (8 : Int) ≠ 4 by decide,
      show (8 : Int) ≠ 5 by decide, show (8 : Int) ≠ 6 by decide,
      show (8 : Int) ≠ 7 by decide, show (9 : Int) ≠ 1 by decide,
      show (9 : Int) ≠ 3 by decide, show (9 : Int) ≠ 4 by decide,
      show (9 : Int) ≠ 5 by decide, show (9 : Int) ≠ 6 by decide,
      show (9 : Int) ≠ 7 by decide, show (9 : Int) ≠ 8 by decide,
      if_neg, if_pos, lexOps, Bool.true_and, true_and] <;>
    first
      | rfl
      | exact rangeErr_iff st hErr _ _

/-- C8: the between action records an error exactly when the first timestamp is strictly after
the second, and builds the TimeRange leaf from the two timestamps. -/
theorem c8 (st : LexSt) (d : Int → PSym) (val : PSym) (hErr : st.err = none) :
    ((runAction lexOps true 18 d val st).2.err ≠ none ↔ (d 4).time < (d 2).time) ∧
    ((runAction lexOps true 18 d val st).1.query =
      Query.timeQ (d 2).time (d 4).time) := by
  constructor
  · show (lexHandleBetween (if (d 4).time < (d 2).time then lexError st _ else st)
        (d 2).time (d 4).time).err ≠ none ↔ _
    simp only [lexHandleBetween]
    exact rangeErr_iff st hErr _ _
  · rfl

/-- Witness for C7: port 77777 (from the repository's tests) is out of range and records an
error on a fresh sink. -/
theorem c7_witness :
    (mkLexSt [] 0).err = none ∧
    ((runAction lexOps true 6 (fun _ => { num := 77777 }) {} (mkLexSt [] 0)).2.err ≠ none ↔
      ((77777 : Int) < 0 ∨ 65536 ≤ (77777 : Int))) :=
  ⟨rfl, (c7 (mkLexSt [] 0) (fun _ => { num := 77777 }) {} rfl).1⟩

/-- Witness for C8: between with first timestamp 5 and second timestamp 3 records an error on
a fresh sink. -/
theorem c8_witness :
    (mkLexSt [] 0).err = none ∧
    ((runAction lexOps true 18 (fun i => if i = 2 then { time := 5 } else { time := 3 }) {}
        (mkLexSt [] 0)).2.err ≠ none ↔
      ((fun i : Int => if i = 2 then ({ time := 5 } : PSym) else { time := 3 }) 4).time <
        ((fun i : Int => if i = 2 then ({ time := 5 } : PSym) else { time := 3 }) 2).time) :=
  ⟨rfl, (c8 (mkLexSt [] 0) (fun i => if i = 2 then { time := 5 } else { time := 3 }) {} rfl).1⟩

/-! ### The literal-run characterization (for C2 and C10) -/

/-- A run "ends because an m or h was consumed" exactly when its last character is m or h
(the scanning loop stops immediately after consuming one). -/
def endsMH : List Char → Bool
  | [] => false
  | [c] => mhChar c
  | _ :: c :: rest => endsMH (c :: rest)

theorem timeChar_cases {c : Char} (h : timeChar c = true) :
    c = '-' ∨ c = 'T' ∨ c = '+' ∨ c = 'Z' := by
  simpa [timeChar, or_assoc] using h

theorem ipChar_cases {c : Char} (h : ipChar c = true) : c = ':' ∨ c = '.' := by
  simpa [ipChar] using h

theorem mhChar_cases {c : Char} (h : mhChar c = true) : c = 'm' ∨ c = 'h' := by
  simpa [mhChar] using h

theorem ipChar_not_time {c : Char} (hi : ipChar c = true) : timeChar c = false := by
  rcases ipChar_cases hi with rfl | rfl <;> decide

theorem ipChar_not_mh {c : Char} (hi : ipChar c = true) : mhChar c = false := by
  rcases ipChar_cases hi with rfl | rfl <;> decide

theorem hexChar_not_time {c : Char} (hx : hexChar c = true) : timeChar c = false := by
  by_contra hc
  rcases timeChar_cases ((Bool.not_eq_false _).mp hc) with rfl | rfl | rfl | rfl <;>
    exact absurd hx (by decide)

theorem hexChar_not_mh {c : Char} (hx : hexChar c = true) : mhChar c = false := by
  by_contra hc
  rcases mhChar_cases ((Bool.not_eq_false _).mp hc) with rfl | rfl <;>
    exact absurd hx (by decide)

theorem mhChar_not_time {c : Char} (hm : mhChar c = true) : timeChar c = false := by
  rcases mhChar_cases hm with rfl | rfl <;> decide

theorem mhChar_not_ip {c : Char} (hm : mhChar c = true) : ipChar c = false := by
  rcases mhChar_cases hm with rfl | rfl <;> decide

/-- The isDur conjunct's step: pushing one non-final character onto a run keeps its
last-character property, provided the remaining run is nonempty. -/
theorem endsMH_cons (c : Char) {l : List Char} (hl : l ≠ []) :
    endsMH (c :: l) = endsMH l := by
  rcases l with _ | ⟨c2, l2⟩
  · exact absurd rfl hl
  · rfl

/-- The flags of the literal-scanning loop say exactly what the consumed run contains: isTime
holds iff a '-' 'T' '+' 'Z' occurred, isIP iff a ':' '.' occurred, isDur iff the run ended by
consuming an 'm' or 'h'; and an empty run has no flags set. -/
theorem scanRun_spec : ∀ (s : List Char),
    ((scanRun s).isTime = (s.take (scanRun s).k).any timeChar) ∧
    ((scanRun s).isIP = (s.take (scanRun s).k).any ipChar) ∧
    ((scanRun s).isDur = endsMH (s.take (scanRun s).k)) ∧
    ((scanRun s).k = 0 → scanRun s = ⟨0, false, false, false⟩)
  | [] => by simp [scanRun, endsMH]
  | c :: cs => by
    obtain ⟨iht, ihi, ihd, ihz⟩ := scanRun_spec cs
    have hdur : ∀ (b : Bool), mhChar c = false →
        ((scanRun cs).isDur = endsMH ((c :: cs).take ((scanRun cs).k + 1))) := by
      intro _ hmh
      rcases hk : (scanRun cs).k with _ | k2
      · rw [ihz hk]
        simp [endsMH, hmh, hk]
      · rcases cs with _ | ⟨c2, cs2⟩
        · simp [scanRun] at hk
        · rw [hk] at ihd
          rw [List.take_succ_cons, endsMH_cons c (by simp [List.take_succ_cons]), ← hk, ihd,
            hk]
    by_cases h1 : ipChar c = true
    · rw [show scanRun (c :: cs) =
          ⟨(scanRun cs).k + 1, true, (scanRun cs).isDur, (scanRun cs).isTime⟩ from by
            rw [scanRun]; rw [if_pos h1]]
      refine ⟨?_, ?_, hdur true (ipChar_not_mh h1), by intro hzz; exact absurd hzz (by simp)⟩
      · simp only [List.take_succ_cons, List.any_cons, ipChar_not_time h1, Bool.false_or, iht]
      · simp [List.take_succ_cons, h1]
    · rw [Bool.not_eq_true] at h1
      by_cases h2 : hexChar c = true
      · rw [show scanRun (c :: cs) =
            ⟨(scanRun cs).k + 1, (scanRun cs).isIP, (scanRun cs).isDur,
              (scanRun cs).isTime⟩ from by
              rw [scanRun]; rw [if_neg (by simp [h1]), if_pos h2]]
        refine ⟨?_, ?_, hdur true (hexChar_not_mh h2), by intro hzz; exact absurd hzz (by simp)⟩
        · simp only [List.take_succ_cons, List.any_cons, hexChar_not_time h2, Bool.false_or,
            iht]
        · simp only [List.take_succ_cons, List.any_cons, h1, Bool.false_or, ihi]
      · rw [Bool.not_eq_true] at h2
        by_cases h3 : mhChar c = true
        · rw [show scanRun (c :: cs) = ⟨1, false, true, false⟩ from by
              rw [scanRun]; rw [if_neg (by simp [h1]), if_neg (by simp [h2]), if_pos h3]]
          refine ⟨?_, ?_, ?_, by intro hzz; exact absurd hzz (by simp)⟩
          · simp [List.take_succ_cons, mhChar_not_time h3]
          · simp [List.take_succ_cons, h1]
          · simp [List.take_succ_cons, endsMH, h3]
        · rw [Bool.not_eq_true] at h3
          by_cases h4 : timeChar c = true
          · rw [show scanRun (c :: cs) =
                ⟨(scanRun cs).k + 1, (scanRun cs).isIP, (scanRun cs).isDur, true⟩ from by
                rw [scanRun]
                rw [if_neg (by simp [h1]), if_neg (by simp [h2]), if_neg (by simp [h3]),
                  if_pos h4]]
            refine ⟨?_, ?_, hdur true h3, by intro hzz; exact absurd hzz (by simp)⟩
            · simp [List.take_succ_cons, h4]
            · simp only [List.take_succ_cons, List.any_cons, h1, Bool.false_or, ihi]
          · rw [Bool.not_eq_true] at h4
            rw [show scanRun (c :: cs) = ⟨0, false, false, false⟩ from by
                rw [scanRun]
                rw [if_neg (by simp [h1]), if_neg (by simp [h2]), if_neg (by simp [h3]),
                  if_neg (by simp [h4])]]
            simp [endsMH]

/-! ### C2 -/

/-- Counterexample to C2 as stated: the literal run of the input "1.2m" ends because an 'm'
was consumed (so by the claim it should be classified and parsed as a duration, i.e. the lexer
should return the DURATION token), but the lexer classifies it as an IP address — the switch of
Lex tests isIP before isDuration — and returns -1 with a "bad IP" error. -/
theorem c2_counterexample :
    endsMH (("1.2m".data).take (scanRun "1.2m".data).k) = true ∧
    (scanRun "1.2m".data).isDur = true ∧
    (lexStep { inp := "1.2m".data } {}).1 = -1 ∧
    (lexStep { inp := "1.2m".data } {}).1 ≠ tokDUR ∧
    (lexStep { inp := "1.2m".data } {}).2.2.err =
      some ⟨ErrMsg.badIP "1.2m".data, 4, "1.2m".data, []⟩ :=
  ⟨rfl, rfl, rfl, by decide, rfl⟩

/-- C2 amended: classification priority of a maximal literal run, as the switch of Lex orders
it — a run containing '-' 'T' '+' 'Z' is a timestamp (parsed as RFC 3339); otherwise a run
containing ':' '.' is an IP address (or a lexical error when unparsable); otherwise a run that
ended because an 'm' or 'h' was consumed is a duration; otherwise a nonempty run is a decimal
integer. -/
theorem c2_amended (st : LexSt) (yylval : PSym) (s : List Char)
    (hs : st.inp.drop (skipSpaces st.inp st.pos) = s)
    (hkw : kwFind tokens s = none) :
    ((scanRun s).isTime = (s.take (scanRun s).k).any timeChar) ∧
    ((scanRun s).isIP = (s.take (scanRun s).k).any ipChar) ∧
    ((scanRun s).isDur = endsMH (s.take (scanRun s).k)) ∧
    ((s.take (scanRun s).k).any timeChar = true →
      (lexStep st yylval).1 = tokTIME ∧
      (lexStep st yylval).2.1.time = (rfc3339 (s.take (scanRun s).k)).getD 0) ∧
    ((s.take (scanRun s).k).any timeChar = false →
      (s.take (scanRun s).k).any ipChar = true →
      ((lexStep st yylval).1 = tokIP ∧ goParseIP (s.take (scanRun s).k) ≠ none) ∨
      ((lexStep st yylval).1 = -1 ∧ goParseIP (s.take (scanRun s).k) = none)) ∧
    ((s.take (scanRun s).k).any timeChar = false →
      (s.take (scanRun s).k).any ipChar = false →
      endsMH (s.take (scanRun s).k) = true →
      (lexStep st yylval).1 = tokDUR ∧
      (lexStep st yylval).2.1.dur = (goParseDur (s.take (scanRun s).k)).getD 0) ∧
    ((s.take (scanRun s).k).any timeChar = false →
      (s.take (scanRun s).k).any ipChar = false →
      endsMH (s.take (scanRun s).k) = false →
      s.take (scanRun s).k ≠ [] →
      ((lexStep st yylval).1 = tokNUM ∧ atoi (s.take (scanRun s).k) ≠ none) ∨
      ((lexStep st yylval).1 = -1 ∧ atoi (s.take (scanRun s).k) = none)) := by
  obtain ⟨ht, hi, hd, hz⟩ := scanRun_spec s
  have hlex : lexStep st yylval =
      (let r := scanRun s
       let part := s.take r.k
       let x : LexSt := { st with pos := skipSpaces st.inp st.pos + r.k }
       if r.isTime then
         match rfc3339 part with
         | some t => (tokTIME, { yylval with time := t }, x)
         | none => (tokTIME, { yylval with time := 0 }, lexError x (ErrMsg.badTime part))
       else if r.isIP then
         match goParseIP part with
         | none => (-1, { yylval with ip := [] }, lexError x (ErrMsg.badIP part))
         | some b =>
           match goTo4 b with
           | some b4 => (tokIP, { yylval with ip := b4 }, x)
           | none => (tokIP, { yylval with ip := b }, x)
       else if r.isDur then
         match goParseDur part with
         | some d => (tokDUR, { yylval with dur := d }, x)
         | none => (tokDUR, { yylval with dur := 0 }, lexError x (ErrMsg.badDur part))
       else if r.k ≠ 0 then
         match atoi part with
         | some n => (tokNUM, { yylval with num := n }, x)
         | none => (-1, yylval, x)
       else if st.inp.length ≤ skipSpaces st.inp st.pos + r.k then (0, yylval, x)
       else
         let c := (st.inp.drop (skipSpaces st.inp st.pos + r.k)).headD ' '
         if c = ':' ∨ c = '.' ∨ c = '(' ∨ c = ')' ∨ c = '/' then
           ((c.toNat : Int), yylval, { x with pos := skipSpaces st.inp st.pos + r.k + 1 })
         else (-1, yylval, x)) := by
    rw [lexStep, hs, hkw]
  refine ⟨ht, hi, hd, ?_, ?_, ?_, ?_⟩
  · intro h4
    rw [hlex]
    have : (scanRun s).isTime = true := by rw [ht, h4]
    simp only [this, if_pos]
    rcases hr : rfc3339 (s.take (scanRun s).k) with _ | t <;> simp [hr]
  · intro h4 h5
    rw [hlex]
    have ht2 : (scanRun s).isTime = false := by rw [ht, h4]
    have hi2 : (scanRun s).isIP = true := by rw [hi, h5]
    simp only [ht2, hi2, Bool.false_eq_true, if_false, if_true]
    rcases hr : goParseIP (s.take (scanRun s).k) with _ | b
    · simp [hr]
    · rcases hr4 : goTo4 b with _ | b4 <;> simp [hr, hr4]
  · intro h4 h5 h6
    rw [hlex]
    have ht2 : (scanRun s).isTime = false := by rw [ht, h4]
    have hi2 : (scanRun s).isIP = false := by rw [hi, h5]
    have hd2 : (scanRun s).isDur = true := by rw [hd, h6]
    simp only [ht2, hi2, hd2, Bool.false_eq_true, if_false, if_true]
    rcases hr : goParseDur (s.take (scanRun s).k) with _ | dv <;> simp [hr]
  · intro h4 h5 h6 h7
    rw [hlex]
    have ht2 : (scanRun s).isTime = false := by rw [ht, h4]
    have hi2 : (scanRun s).isIP = false := by rw [hi, h5]
    have hd2 : (scanRun s).isDur = false := by rw [hd, h6]
    have hk2 : (scanRun s).k ≠ 0 := by
      intro hk0
      exact h7 (by rw [hk0, List.take_zero])
    simp only [ht2, hi2, hd2, Bool.false_eq_true, if_false, hk2, ne_eq,
      not_false_eq_true, if_true]
    rcases hr : atoi (s.take (scanRun s).k) with _ | n <;> simp [hr]

/-- Witness for C2 (amended): the input "3-4" satisfies the hypotheses, its run contains '-',
and it is classified as a timestamp. -/
theorem c2_amended_witness :
    (({ inp := "3-4".data } : LexSt).inp.drop
        (skipSpaces ({ inp := "3-4".data } : LexSt).inp
          ({ inp := "3-4".data } : LexSt).pos) = "3-4".data) ∧
    (kwFind tokens "3-4".data = none) ∧
    ((("3-4".data).take (scanRun "3-4".data).k).any timeChar = true →
      (lexStep { inp := "3-4".data } {}).1 = tokTIME ∧
      (lexStep { inp := "3-4".data } {}).2.1.time =
        (rfc3339 (("3-4".data).take (scanRun "3-4".data).k)).getD 0) :=
  ⟨rfl, rfl, (c2_amended { inp := "3-4".data } {} "3-4".data rfl rfl).2.2.2.1⟩

/-! ### C9 -/

/-- kwFind returns the unique matching entry when the table has one: any entry whose keyword
matches the input must be that entry. -/
theorem kwFind_of_mem : ∀ (tbl : List (List Char × Int)) (kw : List Char) (code : Int)
    (s : List Char), (kw, code) ∈ tbl → kw.isPrefixOf s = true →
    (∀ p ∈ tbl, p.1.isPrefixOf s = true → p = (kw, code)) →
    kwFind tbl s = some (kw.length, code)
  | [], _, _, _, hmem, _, _ => absurd hmem (List.not_mem_nil _)
  | (t, i) :: rest, kw, code, s, hmem, hpre, huniq => by
    by_cases hts : t.isPrefixOf s = true
    · have := huniq (t, i) (List.mem_cons_self _ _) hts
      rw [kwFind, if_pos hts]
      rw [show t = kw from congrArg Prod.fst this, show i = code from congrArg Prod.snd this]
    · rw [kwFind, if_neg hts]
      rcases List.mem_cons.mp hmem with he | hmem2
      · injection he with he1 he2
        rw [he1] at hpre
        exact absurd hpre hts
      · exact kwFind_of_mem rest kw code s hmem2 hpre
          (fun p hp hps => huniq p (List.mem_cons_of_mem _ hp) hps)

/-- C9: the keyword matcher tests raw prefixes with no word-boundary check — whenever the
remaining input (after whitespace) begins with a keyword of the table, Lex returns that
keyword's token with the cursor advanced by exactly the keyword's length, regardless of what
follows; in particular "hostname" lexes as HOST followed by a dangling unparsable suffix. -/
theorem c9 :
    (∀ (st : LexSt) (yylval : PSym) (kw : List Char) (code : Int),
        (kw, code) ∈ tokens →
        kw.isPrefixOf (st.inp.drop (skipSpaces st.inp st.pos)) = true →
        lexStep st yylval =
          (code, yylval,
           { st with pos := skipSpaces st.inp st.pos + kw.length })) ∧
    (lexStep { inp := "hostname".data } {} =
        (tokHOST, {}, { inp := "hostname".data, pos := 4 }) ∧
      lexStep { inp := "hostname".data, pos := 4 } {} =
        (-1, {}, { inp := "hostname".data, pos := 4 })) := by
  constructor
  · intro st yylval kw code hmem hpre
    have tabInj : ∀ p ∈ tokens, ∀ q ∈ tokens, p.1 = q.1 → p.2 = q.2 := by decide
    have tabNoPre : ∀ p ∈ tokens, ∀ q ∈ tokens, p.1 ≠ q.1 →
        p.1.isPrefixOf q.1 = false := by decide
    have hk : kwFind tokens (st.inp.drop (skipSpaces st.inp st.pos)) =
        some (kw.length, code) := by
      apply kwFind_of_mem tokens kw code _ hmem hpre
      intro p hp hps
      have hcmp := List.prefix_or_prefix_of_prefix
        (List.isPrefixOf_iff_prefix.mp hps) (List.isPrefixOf_iff_prefix.mp hpre)
      by_cases he : p.1 = kw
      · have h2 := tabInj p hp (kw, code) hmem he
        rcases p with ⟨p1, p2⟩
        simp only at he h2
        rw [he, h2]
      · exfalso
        rcases hcmp with h | h
        · exact absurd (List.isPrefixOf_iff_prefix.mpr h)
            (by rw [tabNoPre p hp (kw, code) hmem he]; simp)
        · exact absurd (List.isPrefixOf_iff_prefix.mpr h)
            (by rw [tabNoPre (kw, code) hmem p hp (fun hq => he hq.symm)]; simp)
    rw [lexStep, hk]
  · exact ⟨rfl, rfl⟩

/-- Witness for C9: "hostname" begins with the keyword host, and Lex splits it at exactly
that keyword's length. -/
theorem c9_witness :
    (("host".data, tokHOST) ∈ tokens ∧
      ("host".data).isPrefixOf
        (({ inp := "hostname".data } : LexSt).inp.drop
          (skipSpaces ({ inp := "hostname".data } : LexSt).inp
            ({ inp := "hostname".data } : LexSt).pos)) = true) ∧
    lexStep { inp := "hostname".data } {} =
      (tokHOST, ({} : PSym),
       { ({ inp := "hostname".data } : LexSt) with
         pos := skipSpaces ({ inp := "hostname".data } : LexSt).inp
             ({ inp := "hostname".data } : LexSt).pos + ("host".data).length }) :=
  ⟨⟨by decide, by decide⟩,
    c9.1 { inp := "hostname".data } {} "host".data tokHOST (by decide) (by decide)⟩

/-! ### C4 -/

mutual
/-- GetTimeSpan of a tree is the left fold of the leaf widening over its time leaves. -/
theorem getTimeSpan_fold : ∀ (q : Query) (st : Int × Int),
    getTimeSpan q st = List.foldl (fun acc x => timeSpanLeaf x.1 x.2 acc) st (timeLeaves q)
  | Query.portQ _, _ => rfl
  | Query.vlanQ _, _ => rfl
  | Query.mplsQ _, _ => rfl
  | Query.protocolQ _, _ => rfl
  | Query.ipQ _ _, _ => rfl
  | Query.nilq, _ => rfl
  | Query.timeQ _ _, _ => rfl
  | Query.unionQ qs, st => by
    rw [show getTimeSpan (Query.unionQ qs) st = getTimeSpanL qs st from rfl,
      show timeLeaves (Query.unionQ qs) = timeLeavesL qs from rfl]
    exact getTimeSpanL_fold qs st
  | Query.intersectQ qs, st => by
    rw [show getTimeSpan (Query.intersectQ qs) st = getTimeSpanL qs st from rfl,
      show timeLeaves (Query.intersectQ qs) = timeLeavesL qs from rfl]
    exact getTimeSpanL_fold qs st

/-- The loop of unionQuery.GetTimeSpan / intersectQuery.GetTimeSpan is the fold over the
concatenated time leaves of the children. -/
theorem getTimeSpanL_fold : ∀ (qs : List Query) (st : Int × Int),
    getTimeSpanL qs st = List.foldl (fun acc x => timeSpanLeaf x.1 x.2 acc) st (timeLeavesL qs)
  | [], _ => rfl
  | q :: qs, st => by
    rw [show getTimeSpanL (q :: qs) st = getTimeSpanL qs (getTimeSpan q st) from rfl,
      show timeLeavesL (q :: qs) = timeLeaves q ++ timeLeavesL qs from rfl,
      List.foldl_append, getTimeSpan_fold q st, getTimeSpanL_fold qs _]
end

/-- The widening step of an "after A" leaf on a seed that is unset or already equal to the
widened bound. -/
theorem timeSpanLeaf_after (A : Int) (hA : A ≠ 0) (s t : Int)
    (hs : s = 0 ∨ s = A - minuteNs) : timeSpanLeaf A 0 (s, t) = (A - minuteNs, t) := by
  unfold timeSpanLeaf
  dsimp only
  split_ifs <;> simp only [Prod.mk.injEq] <;> constructor <;> first | trivial | omega

/-- The widening step of a "before B" leaf on a seed that is unset or already equal to the
widened bound. -/
theorem timeSpanLeaf_before (B : Int) (hB : B ≠ 0) (s t : Int)
    (ht : t = 0 ∨ t = B + minuteNs) : timeSpanLeaf 0 B (s, t) = (s, B + minuteNs) := by
  unfold timeSpanLeaf
  dsimp only
  split_ifs <;> simp only [Prod.mk.injEq] <;> constructor <;> first | trivial | omega

/-- Folding the leaf widening over a list of "after A" and "before B" leaves from a compatible
seed yields exactly the widened bounds that occur. -/
theorem foldSpan_leaves (A B : Int) (hA : A ≠ 0) (hB : B ≠ 0) :
    ∀ (l : List (Int × Int)) (s t : Int),
      (∀ x ∈ l, x = (A, 0) ∨ x = (0, B)) →
      (s = 0 ∨ s = A - minuteNs) → (t = 0 ∨ t = B + minuteNs) →
      List.foldl (fun acc x => timeSpanLeaf x.1 x.2 acc) (s, t) l =
        ((if (A, 0) ∈ l then A - minuteNs else s), (if (0, B) ∈ l then B + minuteNs else t))
  | [], s, t, _, _, _ => by simp
  | x :: l, s, t, hl, hs, ht => by
    have hAB : ((A, 0) : Int × Int) ≠ (0, B) := by
      intro hc
      exact hA (congrArg Prod.fst hc)
    rcases hl x (List.mem_cons_self _ _) with rfl | rfl
    · rw [List.foldl_cons]
      dsimp only
      rw [timeSpanLeaf_after A hA s t hs,
        foldSpan_leaves A B hA hB l (A - minuteNs) t
          (fun y hy => hl y (List.mem_cons_of_mem _ hy)) (Or.inr rfl) ht,
        if_pos (List.mem_cons_self _ _)]
      simp only [Prod.mk.injEq]
      constructor
      · split_ifs <;> rfl
      · by_cases hm : (0, B) ∈ l
        · rw [if_pos hm, if_pos (List.mem_cons_of_mem _ hm)]
        · rw [if_neg hm, if_neg ?_]
          intro hc
          rcases List.mem_cons.mp hc with he | hm2
          · exact hAB he.symm
          · exact hm hm2
    · rw [List.foldl_cons]
      dsimp only
      rw [timeSpanLeaf_before B hB s t ht,
        foldSpan_leaves A B hA hB l s (B + minuteNs)
          (fun y hy => hl y (List.mem_cons_of_mem _ hy)) hs (Or.inr rfl),
        if_pos (List.mem_cons_self _ _)]
      simp only [Prod.mk.injEq]
      constructor
      · by_cases hm : (A, 0) ∈ l
        · rw [if_pos hm, if_pos (List.mem_cons_of_mem _ hm)]
        · rw [if_neg hm, if_neg ?_]
          intro hc
          rcases List.mem_cons.mp hc with he | hm2
          · exact hAB he
          · exact hm hm2
      · split_ifs <;> rfl

/-- C4: over a tree whose time leaves are exactly "after A" and "before B" leaves (A ≤ B, both
bounds set), GetTimeSpan seeded with the unset pair returns exactly (A − 1 minute,
B + 1 minute); and over a tree with no time leaves, GetTimeSpan is the identity on any seed
(every non-time leaf returns the bounds unchanged, composites fold over their children). -/
theorem c4 :
    (∀ (q : Query) (A B : Int), A ≠ 0 → B ≠ 0 → A ≤ B →
        (∀ x ∈ timeLeaves q, x = (A, 0) ∨ x = (0, B)) →
        (A, 0) ∈ timeLeaves q → (0, B) ∈ timeLeaves q →
        getTimeSpan q (0, 0) = (A - minuteNs, B + minuteNs)) ∧
    (∀ (q : Query) (s t : Int), timeLeaves q = [] → getTimeSpan q (s, t) = (s, t)) := by
  constructor
  · intro q A B hA hB _ hl hmA hmB
    rw [getTimeSpan_fold, foldSpan_leaves A B hA hB (timeLeaves q) 0 0 hl (Or.inl rfl)
      (Or.inl rfl), if_pos hmA, if_pos hmB]
  · intro q s t hq
    rw [getTimeSpan_fold, hq]
    rfl

/-- Witness for C4: the tree (after 2min and before 3min) has exactly those two time leaves
and gets the widened envelope. -/
theorem c4_witness :
    ((120000000000 : Int) ≠ 0 ∧ (180000000000 : Int) ≠ 0 ∧
      (120000000000 : Int) ≤ 180000000000 ∧
      (∀ x ∈ timeLeaves (Query.intersectQ
          [Query.timeQ 120000000000 0, Query.timeQ 0 180000000000]),
        x = ((120000000000 : Int), (0 : Int)) ∨ x = ((0 : Int), (180000000000 : Int))) ∧
      ((120000000000 : Int), (0 : Int)) ∈ timeLeaves (Query.intersectQ
          [Query.timeQ 120000000000 0, Query.timeQ 0 180000000000]) ∧
      ((0 : Int), (180000000000 : Int)) ∈ timeLeaves (Query.intersectQ
          [Query.timeQ 120000000000 0, Query.timeQ 0 180000000000])) ∧
    getTimeSpan (Query.intersectQ [Query.timeQ 120000000000 0, Query.timeQ 0 180000000000])
        (0, 0) =
      (120000000000 - minuteNs, 180000000000 + minuteNs) :=
  ⟨⟨by decide, by decide, by decide, by decide, by decide, by decide⟩,
    c4.1 (Query.intersectQ [Query.timeQ 120000000000 0, Query.timeQ 0 180000000000])
      120000000000 180000000000 (by decide) (by decide) (by decide) (by decide) (by decide)
      (by decide)⟩

/-! ### C1 -/

/-- C1: and/&& and or/|| are equal-precedence and left-associative — an unparenthesized chain
mixing both folds strictly left to right.  First conjunct: for arbitrary in-range port values,
the tables parse PORT n1 AND PORT n2 OR PORT n3 AND PORT n4 to
And(Or(And(port n1, port n2), port n3), port n4) and accept.  Second conjunct: the same
grouping end to end from query text through the real lexer. -/
theorem c1 (n1 n2 n3 n4 : Int) (now : Int)
    (h1 : 0 ≤ n1 ∧ n1 < 65536) (h2 : 0 ≤ n2 ∧ n2 < 65536)
    (h3 : 0 ≤ n3 ∧ n3 < 65536) (h4 : 0 ≤ n4 ∧ n4 < 65536) :
    (parserParse tokOps true 60
      { toks := [Tk.port, Tk.num n1, Tk.andK, Tk.port, Tk.num n2, Tk.orK,
                 Tk.port, Tk.num n3, Tk.andK, Tk.port, Tk.num n4], now := now } =
      some (0,
        { toks := [], now := now,
          out := Query.intersectQ [Query.unionQ [Query.intersectQ
            [Query.portQ (uint16 n1), Query.portQ (uint16 n2)],
            Query.portQ (uint16 n3)], Query.portQ (uint16 n4)],
          err := none, startTime := 0, stopTime := 0 })) ∧
    parse 400 "port 1 and port 2 or port 3 and port 4".data 0 =
      some (Query.intersectQ [Query.unionQ [Query.intersectQ
        [Query.portQ 1, Query.portQ 2], Query.portQ 3], Query.portQ 4], 0, 0, none) := by
  constructor
  · have hc1 : ¬(n1 < 0 ∨ 65536 ≤ n1) := by omega
    have hc2 : ¬(n2 < 0 ∨ 65536 ≤ n2) := by omega
    have hc3 : ¬(n3 < 0 ∨ 65536 ≤ n3) := by omega
    have hc4 : ¬(n4 < 0 ∨ 65536 ≤ n4) := by omega
    simp [parserParse, mrun, initCfg, stepFn, reduceStep, runAction, lex1, tokOps, tkCode,
      tkSet, updS, tg, excaLookup, excaRow, excaScan, findErrShift, parserPact, parserAct,
      parserChk, parserDef, parserR1, parserR2, parserPgo, parserTok1, parserTok2, parserExca,
      parserLast, parserFlag, parserEofCode, parserErrCode, tokPORT, tokAND, tokOR, tokNUM,
      hc1, hc2, hc3, hc4]
  · rfl

/-- Witness for C1: the bounds hold at ports 1 2 3 4 and the parse yields the left-folded
tree. -/
theorem c1_witness :
    ((0 : Int) ≤ 1 ∧ (1 : Int) < 65536) ∧
    (parserParse tokOps true 60
      { toks := [Tk.port, Tk.num 1, Tk.andK, Tk.port, Tk.num 2, Tk.orK,
                 Tk.port, Tk.num 3, Tk.andK, Tk.port, Tk.num 4], now := 77 } =
      some (0,
        { toks := [], now := 77,
          out := Query.intersectQ [Query.unionQ [Query.intersectQ
            [Query.portQ (uint16 1), Query.portQ (uint16 2)],
            Query.portQ (uint16 3)], Query.portQ (uint16 4)],
          err := none, startTime := 0, stopTime := 0 })) :=
  ⟨⟨by decide, by decide⟩,
    (c1 1 2 3 4 77 ⟨by decide, by decide⟩ ⟨by decide, by decide⟩ ⟨by decide, by decide⟩
      ⟨by decide, by decide⟩).1⟩

/-! ### C10: the lexer side -/

/-- A successful Atoi of a string not starting with '-' is nonnegative. -/
theorem atoi_nonneg (s : List Char) (n : Int) (h : atoi s = some n)
    (hd : s.headD ' ' ≠ '-') : 0 ≤ n := by
  unfold atoi at h
  split at h
  next neg digs heq =>
    have hneg : neg = false := by
      split at heq
      · simp at hd
      · exact (Prod.mk.injEq _ _ _ _ ▸ heq.symm).1.symm ▸ rfl
      · exact (Prod.mk.injEq _ _ _ _ ▸ heq.symm).1.symm ▸ rfl
    subst hneg
    split at h
    · exact absurd h (by simp)
    · exact absurd h (by simp)
    next v hv =>
      rw [if_neg (by simp)] at h
      split_ifs at h
      exact (Option.some.inj h) ▸ Int.natCast_nonneg v

/-- A run with no time characters cannot start with '-'. -/
theorem no_minus_head {l : List Char} (h : l.any timeChar = false) : l.headD ' ' ≠ '-' := by
  rcases l with _ | ⟨c, rest⟩
  · decide
  · simp only [List.any_cons, Bool.or_eq_false_iff] at h
    intro hc
    rw [List.headD_cons] at hc
    subst hc
    exact absurd h.1 (by decide)

/-- Every token code a successful keyword match can return is in the table. -/
theorem kwFind_mem_code : ∀ (tbl : List (List Char × Int)) (s : List Char) (len : Nat)
    (code : Int), kwFind tbl s = some (len, code) → ∃ p ∈ tbl, p.2 = code
  | [], _, _, _, h => by simp [kwFind] at h
  | (t, i) :: rest, s, len, code, h => by
    rw [kwFind] at h
    split_ifs at h with hp
    · refine ⟨(t, i), List.mem_cons_self _ _, ?_⟩
      have := Option.some.inj h
      exact congrArg Prod.snd this
    · obtain ⟨p, hp2, hc⟩ := kwFind_mem_code rest s len code h
      exact ⟨p, List.mem_cons_of_mem _ hp2, hc⟩

/-- Every branch of Lex either leaves yylval.num untouched and returns a non-NUM token, or
returns NUM carrying a nonnegative value. -/
theorem lexStep_num_master (x : LexSt) (l : PSym) :
    ((lexStep x l).2.1.num = l.num ∧ (lexStep x l).1 ≠ tokNUM) ∨
    ((lexStep x l).1 = tokNUM ∧ 0 ≤ (lexStep x l).2.1.num) := by
  obtain ⟨ht, hi, hd, hz⟩ := scanRun_spec (x.inp.drop (skipSpaces x.inp x.pos))
  rw [lexStep]
  rcases hkw : kwFind tokens (x.inp.drop (skipSpaces x.inp x.pos)) with _ | ⟨len, code⟩
  · dsimp only
    by_cases h1 : (scanRun (x.inp.drop (skipSpaces x.inp x.pos))).isTime = true
    · rw [if_pos h1]
      left
      rcases _hr : rfc3339 ((x.inp.drop (skipSpaces x.inp x.pos)).take
          (scanRun (x.inp.drop (skipSpaces x.inp x.pos))).k) with _ | t <;>
        exact ⟨by dsimp only, by dsimp only; decide⟩
    · rw [if_neg h1]
      by_cases h2 : (scanRun (x.inp.drop (skipSpaces x.inp x.pos))).isIP = true
      · rw [if_pos h2]
        rcases _hr : goParseIP ((x.inp.drop (skipSpaces x.inp x.pos)).take
            (scanRun (x.inp.drop (skipSpaces x.inp x.pos))).k) with _ | b
        · exact Or.inl ⟨by dsimp only, by dsimp only; decide⟩
        · dsimp only
          rcases _hr4 : goTo4 b with _ | b4 <;>
            exact Or.inl ⟨by dsimp only, by dsimp only; decide⟩
      · rw [if_neg h2]
        by_cases h3 : (scanRun (x.inp.drop (skipSpaces x.inp x.pos))).isDur = true
        · rw [if_pos h3]
          rcases _hr : goParseDur ((x.inp.drop (skipSpaces x.inp x.pos)).take
              (scanRun (x.inp.drop (skipSpaces x.inp x.pos))).k) with _ | dv <;>
            exact Or.inl ⟨by dsimp only, by dsimp only; decide⟩
        · rw [if_neg h3]
          by_cases h4 : (scanRun (x.inp.drop (skipSpaces x.inp x.pos))).k ≠ 0
          · rw [if_pos h4]
            rcases ha : atoi ((x.inp.drop (skipSpaces x.inp x.pos)).take
                (scanRun (x.inp.drop (skipSpaces x.inp x.pos))).k) with _ | n
            · exact Or.inl ⟨by dsimp only, by dsimp only; decide⟩
            · right
              refine ⟨by dsimp only, ?_⟩
              show 0 ≤ ({ l with num := n } : PSym).num
              refine atoi_nonneg _ n ha (no_minus_head ?_)
              rw [← ht]
              exact Bool.not_eq_true _ ▸ h1
          · rw [if_neg h4]
            by_cases h5 : x.inp.length ≤ skipSpaces x.inp x.pos +
                (scanRun (x.inp.drop (skipSpaces x.inp x.pos))).k
            · rw [if_pos h5]
              exact Or.inl ⟨by dsimp only, by dsimp only; decide⟩
            · rw [if_neg h5]
              by_cases h6 : (x.inp.drop (skipSpaces x.inp x.pos +
                    (scanRun (x.inp.drop (skipSpaces x.inp x.pos))).k)).headD ' ' = ':' ∨
                  (x.inp.drop (skipSpaces x.inp x.pos +
                    (scanRun (x.inp.drop (skipSpaces x.inp x.pos))).k)).headD ' ' = '.' ∨
                  (x.inp.drop (skipSpaces x.inp x.pos +
                    (scanRun (x.inp.drop (skipSpaces x.inp x.pos))).k)).headD ' ' = '(' ∨
                  (x.inp.drop (skipSpaces x.inp x.pos +
                    (scanRun (x.inp.drop (skipSpaces x.inp x.pos))).k)).headD ' ' = ')' ∨
                  (x.inp.drop (skipSpaces x.inp x.pos +
                    (scanRun (x.inp.drop (skipSpaces x.inp x.pos))).k)).headD ' ' = '/'
              · rw [if_pos h6]
                left
                refine ⟨by dsimp only, ?_⟩
                rcases h6 with hc | hc | hc | hc | hc <;> rw [hc] <;> dsimp only <;> decide
              · rw [if_neg h6]
                exact Or.inl ⟨by dsimp only, by dsimp only; decide⟩
  · dsimp only
    left
    refine ⟨rfl, ?_⟩
    obtain ⟨p, hp, hcode⟩ := kwFind_mem_code tokens _ len code hkw
    have : ∀ q ∈ tokens, q.2 ≠ tokNUM := by decide
    rw [← hcode]
    exact this p hp


/-! ### C10: the machine side -/

/-- With a nonnegative operand the range condition does not depend on the negCheck guard. -/
theorem negCheck_cond_iff (n : Int) (hn : 0 ≤ n) (B : Prop) :
    (((true : Bool) = true ∧ n < 0) ∨ B) ↔ (((false : Bool) = true ∧ n < 0) ∨ B) := by
  constructor
  · rintro (⟨-, hneg⟩ | hge)
    · exact absurd hneg (by omega)
    · exact Or.inr hge
  · rintro (⟨hfalse, -⟩ | hge)
    · exact absurd hfalse (by simp)
    · exact Or.inr hge

/-- The action switch does not depend on the negCheck guard when the numeric operands carried
by the Dollar slice are nonnegative. -/
theorem runAction_nc {σ : Type} (ops : LexerOps σ) (nt : Int) (d : Int → PSym) (val : PSym)
    (st : σ) (hd2 : 0 ≤ (d 2).num) (hd3 : 0 ≤ (d 3).num) :
    runAction ops true nt d val st = runAction ops false nt d val st := by
  unfold runAction
  by_cases h1 : nt = 1
  · simp only [if_pos h1]
  · simp only [if_neg h1]
    by_cases h3 : nt = 3
    · simp only [if_pos h3]
    · simp only [if_neg h3]
      by_cases h4 : nt = 4
      · simp only [if_pos h4]
      · simp only [if_neg h4]
        by_cases h5 : nt = 5
        · simp only [if_pos h5]
        · simp only [if_neg h5]
          by_cases h6 : nt = 6
          · simp only [if_pos h6]
            refine congrArg _ (if_congr ?_ rfl rfl)
            constructor
            · rintro (⟨-, hneg⟩ | hge)
              · exact absurd hneg (by omega)
              · exact Or.inr hge
            · rintro (⟨hfalse, -⟩ | hge)
              · exact absurd hfalse (by simp)
              · exact Or.inr hge
          · simp only [if_neg h6]
            by_cases h7 : nt = 7
            · simp only [if_pos h7]
              refine congrArg _ (if_congr ?_ rfl rfl)
              constructor
              · rintro (⟨-, hneg⟩ | hge)
                · exact absurd hneg (by omega)
                · exact Or.inr hge
              · rintro (⟨hfalse, -⟩ | hge)
                · exact absurd hfalse (by simp)
                · exact Or.inr hge
            · simp only [if_neg h7]
              by_cases h8 : nt = 8
              · simp only [if_pos h8]
                refine congrArg _ (if_congr ?_ rfl rfl)
                constructor
                · rintro (⟨-, hneg⟩ | hge)
                  · exact absurd hneg (by omega)
                  · exact Or.inr hge
                · rintro (⟨hfalse, -⟩ | hge)
                  · exact absurd hfalse (by simp)
                  · exact Or.inr hge
              · simp only [if_neg h8]
                by_cases h9 : nt = 9
                · simp only [if_pos h9]
                  refine congrArg _ (if_congr ?_ rfl rfl)
                  constructor
                  · rintro (⟨-, hneg⟩ | hge)
                    · exact absurd hneg (by omega)
                    · exact Or.inr hge
                  · rintro (⟨hfalse, -⟩ | hge)
                    · exact absurd hfalse (by simp)
                    · exact Or.inr hge
                · simp only [if_neg h9]

/-- No case of the action switch modifies the num field of parserVAL. -/
theorem runAction_num {σ : Type} (ops : LexerOps σ) (negCheck : Bool) (nt : Int)
    (d : Int → PSym) (val : PSym) (st : σ) :
    (runAction ops negCheck nt d val st).1.num = val.num := by
  unfold runAction
  by_cases h1 : nt = 1
  · simp only [if_pos h1]
  · simp only [if_neg h1]
    by_cases h3 : nt = 3
    · simp only [if_pos h3]
    · simp only [if_neg h3]
      by_cases h4 : nt = 4
      · simp only [if_pos h4]
      · simp only [if_neg h4]
        by_cases h5 : nt = 5
        · simp only [if_pos h5]
        · simp only [if_neg h5]
          by_cases h6 : nt = 6
          · simp only [if_pos h6]
          · simp only [if_neg h6]
            by_cases h7 : nt = 7
            · simp only [if_pos h7]
            · simp only [if_neg h7]
              by_cases h8 : nt = 8
              · simp only [if_pos h8]
              · simp only [if_neg h8]
                by_cases h9 : nt = 9
                · simp only [if_pos h9]
                · simp only [if_neg h9]
                  by_cases h10 : nt = 10
                  · simp only [if_pos h10]
                    split <;> rfl
                  · simp only [if_neg h10]
                    by_cases h11 : nt = 11
                    · simp only [if_pos h11]
                      split <;> rfl
                    · simp only [if_neg h11]
                      by_cases h12 : nt = 12
                      · simp only [if_pos h12]
                      · simp only [if_neg h12]
                        by_cases h13 : nt = 13
                        · simp only [if_pos h13]
                        · simp only [if_neg h13]
                          by_cases h14 : nt = 14
                          · simp only [if_pos h14]
                          · simp only [if_neg h14]
                            by_cases h15 : nt = 15
                            · simp only [if_pos h15]
                            · simp only [if_neg h15]
                              by_cases h16 : nt = 16
                              · simp only [if_pos h16]
                              · simp only [if_neg h16]
                                by_cases h17 : nt = 17
                                · simp only [if_pos h17]
                                · simp only [if_neg h17]
                                  by_cases h18 : nt = 18
                                  · simp only [if_pos h18]
                                  · simp only [if_neg h18]
                                    by_cases h19 : nt = 19
                                    · simp only [if_pos h19]
                                    · simp only [if_neg h19]
                                      by_cases h20 : nt = 20
                                      · simp only [if_pos h20]
                                      · simp only [if_neg h20]


/-- The num-nonnegativity invariant of a driver configuration. -/
def cfgOk {σ : Type} (c : MCfg σ) : Prop :=
  (∀ i, 0 ≤ (c.S i).num) ∧ 0 ≤ c.val.num ∧ 0 ≤ c.lval.num

theorem lex1_num {σ : Type} (ops : LexerOps σ)
    (hlex : ∀ st l, 0 ≤ l.num → 0 ≤ (ops.lex st l).2.1.num) (st : σ) (l : PSym)
    (h : 0 ≤ l.num) : 0 ≤ (lex1 ops st l).2.2.1.num := by
  unfold lex1
  dsimp only
  exact hlex st l h

theorem reduceStep_nc {σ : Type} (ops : LexerOps σ) (c : MCfg σ) (n : Int)
    (h : ∀ i, 0 ≤ (c.S i).num) :
    reduceStep ops true c n = reduceStep ops false c n := by
  unfold reduceStep
  dsimp only
  rw [runAction_nc ops n (fun i => c.S (c.p - tg parserR2 n + i))
    (c.S (c.p - tg parserR2 n + 1)) c.lexst (h _) (h _)]

theorem stepFn_nc {σ : Type} (ops : LexerOps σ) (c : MCfg σ) (h : ∀ i, 0 ≤ (c.S i).num) :
    stepFn ops true c = stepFn ops false c := by
  rcases c with ⟨S, p, val, lval, state, char, tok, errflag, nerrs, lexst, phase⟩
  cases phase
  case pstack => rfl
  case pnewstate => rfl
  case pdefault =>
    show stepFn ops true _ = stepFn ops false _
    unfold stepFn
    dsimp only
    repeat' split
    all_goals
      first
        | rfl
        | (apply reduceStep_nc; intro i; exact h i)

theorem stepFn_pres {σ : Type} (ops : LexerOps σ)
    (hlex : ∀ st l, 0 ≤ l.num → 0 ≤ (ops.lex st l).2.1.num)
    (negCheck : Bool) (c : MCfg σ) (h : cfgOk c) (c' : MCfg σ)
    (hstep : stepFn ops negCheck c = Sum.inl c') : cfgOk c' := by
  obtain ⟨hS, hval, hlval⟩ := h
  rcases c with ⟨S, p, val, lval, state, char, tok, errflag, nerrs, lexst, phase⟩
  dsimp only at hS hval hlval
  cases phase
  case pstack =>
    unfold stepFn at hstep
    dsimp only at hstep
    injection hstep with hc'
    subst hc'
    refine ⟨?_, hval, hlval⟩
    intro i
    unfold updS
    dsimp only
    split
    · exact hval
    · exact hS i
  case pnewstate =>
    unfold stepFn at hstep
    dsimp only at hstep
    repeat' split at hstep
    all_goals
      first
        | (injection hstep with hc'
           subst hc'
           refine ⟨hS, ?_, ?_⟩ <;>
             first
               | exact hval
               | exact hlval
               | exact lex1_num ops hlex _ _ hlval)
  case pdefault =>
    unfold stepFn at hstep
    dsimp only at hstep
    repeat' split at hstep
    all_goals
      first
        | (injection hstep with hc'
           subst hc'
           refine ⟨?_, ?_, ?_⟩ <;>
             first
               | exact hS
               | exact hval
               | exact hlval
               | exact lex1_num ops hlex _ _ hlval
               | (rw [runAction_num]; exact hS _))
        | exact Sum.noConfusion hstep

theorem mrun_nc {σ : Type} (ops : LexerOps σ)
    (hlex : ∀ st l, 0 ≤ l.num → 0 ≤ (ops.lex st l).2.1.num) :
    ∀ (fuel : Nat) (c : MCfg σ), cfgOk c → mrun ops true fuel c = mrun ops false fuel c
  | 0, _, _ => rfl
  | fuel + 1, c, h => by
    unfold mrun
    rw [← stepFn_nc ops c h.1]
    rcases hs : stepFn ops true c with c2 | r
    · exact mrun_nc ops hlex fuel c2 (stepFn_pres ops hlex true c h c2 hs)
    · rfl

/-- C10: every integer token the lexer emits carries a nonnegative value (the literal scanner
never includes '-' in an integer run — a '-' forces timestamp classification), and therefore
the "num < 0" disjuncts of the port, vlan, mpls and ip-proto range validations are unreachable
for queries produced by lexing text: the machine with those disjuncts and the machine without
them agree on every lexed input. -/
theorem c10 :
    (∀ (x : LexSt) (yylval : PSym), (lexStep x yylval).1 = tokNUM →
        0 ≤ (lexStep x yylval).2.1.num) ∧
    (∀ (fuel : Nat) (inp : List Char) (now : Int),
        parserParse lexOps true fuel (mkLexSt inp now) =
        parserParse lexOps false fuel (mkLexSt inp now)) := by
  have hlex : ∀ st l, 0 ≤ l.num → 0 ≤ (lexOps.lex st l).2.1.num := by
    intro st l hl
    rcases lexStep_num_master st l with ⟨he, -⟩ | ⟨-, he⟩
    · show 0 ≤ (lexStep st l).2.1.num
      rw [he]
      exact hl
    · exact he
  constructor
  · intro x yylval hn
    rcases lexStep_num_master x yylval with ⟨-, hne⟩ | ⟨-, he⟩
    · exact absurd hn hne
    · exact he
  · intro fuel inp now
    unfold parserParse
    exact mrun_nc lexOps hlex fuel (initCfg (mkLexSt inp now))
      ⟨fun i => le_refl 0, le_refl 0, le_refl 0⟩

/-- Witness for C10: lexing "80" emits NUM, and its value is nonnegative. -/
theorem c10_witness :
    (lexStep { inp := "80".data } {}).1 = tokNUM ∧
    0 ≤ (lexStep { inp := "80".data } {}).2.1.num :=
  ⟨rfl, c10.1 { inp := "80".data } {} rfl⟩

end Steno
